import Mathlib

/-!
The live capture-and-enrichment pipeline of dungeon-scribe.

A shallow embedding of the recorder hook (`useAudioRecorder.js`), the recording
context (`RecordingContext.jsx`) and the entity extraction of `llm.js`, with the
properties of the pipeline stated over it.
-/

namespace DungeonScribe

/-! ## The recorder hook (`src/renderer/hooks/useAudioRecorder.js`) -/

/-- A `Blob` of encoded audio as delivered by `ondataavailable`: its bytes.
`event.data.size` is the number of bytes. -/
structure Blob where
  bytes : List Nat
deriving DecidableEq, Repr

/-- The `size` property of a blob. -/
def Blob.size (b : Blob) : Nat := b.bytes.length

/-- The `state` of the `MediaRecorder` object. -/
inductive MediaRecorderState where
  | inactive
  | recording
  | paused
deriving DecidableEq, Repr

/-- The refs and state of `useAudioRecorder` that the chunking logic reads and writes.
`mediaRecorder` is `mediaRecorderRef.current` (`none` for `null`) with its `state`;
`chunkTimer` says whether `chunkTimerRef.current` holds a running interval;
`onChunk` says whether the hook was given an `onChunk` callback. -/
structure Recorder where
  chunksRef : List Blob
  allChunksRef : List Blob
  headerChunkRef : Option Blob
  chunkCountRef : Nat
  chunkCount : Nat
  chunkTimer : Bool
  mediaRecorder : Option MediaRecorderState
  onChunk : Bool
deriving DecidableEq, Repr

/-- What `processChunk` builds when it emits: the index it assigned and the parts
handed to `new Blob(blobParts)`. -/
structure Segment where
  index : Nat
  blobParts : List Blob
deriving DecidableEq, Repr

/-- The hook before any recording was started. -/
def Recorder.init (onChunk : Bool) : Recorder :=
  { chunksRef := [], allChunksRef := [], headerChunkRef := none, chunkCountRef := 0,
    chunkCount := 0, chunkTimer := false, mediaRecorder := none, onChunk := onChunk }

/-- The synchronous part of `processChunk` (lines 39-65): nothing happens on an empty
`chunksRef`; otherwise the current count is taken as the index, the count is bumped,
the header is saved on index 0, the parts are built, the buffers are moved to
`allChunksRef` and `chunkCount` is published. -/
def processChunk (r : Recorder) : Recorder × Option Segment :=
  if r.chunksRef.length = 0 then (r, none)
  else
    let currentChunkIndex := r.chunkCountRef
    let chunkCountRef := r.chunkCountRef + 1
    let headerChunkRef :=
      if currentChunkIndex = 0 ∧ r.chunksRef.length > 0 then r.chunksRef.head? else r.headerChunkRef
    let blobParts :=
      if currentChunkIndex = 0 then r.chunksRef
      else match headerChunkRef with
        | some h => h :: r.chunksRef
        | none => r.chunksRef
    ({ r with
        chunkCountRef := chunkCountRef
        headerChunkRef := headerChunkRef
        allChunksRef := r.allChunksRef ++ r.chunksRef
        chunksRef := []
        chunkCount := chunkCountRef },
     some { index := currentChunkIndex, blobParts := blobParts })

/-- The state changes of a successful `startRecording(deviceId, liveMode)` (lines 106-134):
the four refs are reset, a recorder in state `recording` is installed, `chunkCount` is set
to 0, and the chunk timer is started when `liveMode && onChunk`. -/
def startRecording (r : Recorder) (liveMode : Bool) : Recorder :=
  { r with
    chunksRef := []
    allChunksRef := []
    chunkCountRef := 0
    headerChunkRef := none
    mediaRecorder := some .recording
    chunkCount := 0
    chunkTimer := if liveMode && r.onChunk then true else r.chunkTimer }

/-- The handler `mediaRecorder.ondataavailable` (lines 111-115). -/
def onDataAvailable (r : Recorder) (data : Blob) : Recorder :=
  if data.size > 0 then { r with chunksRef := r.chunksRef ++ [data] } else r

/-- The function `pauseRecording` (lines 188-202). -/
def pauseRecording (r : Recorder) : Recorder :=
  match r.mediaRecorder with
  | some .recording => { r with mediaRecorder := some .paused, chunkTimer := false }
  | _ => r

/-- The function `resumeRecording` (lines 204-219). -/
def resumeRecording (r : Recorder) : Recorder :=
  match r.mediaRecorder with
  | some .paused =>
      { r with mediaRecorder := some .recording
               chunkTimer := if r.onChunk then true else r.chunkTimer }
  | _ => r

/-- The function `flushChunk` (lines 222-224). -/
def flushChunk (r : Recorder) : Recorder × Option Segment := processChunk r

/-- The callback of the chunk interval (lines 131-133, 214-216): it only fires while the
interval is installed. -/
def chunkTimerTick (r : Recorder) : Recorder × Option Segment :=
  if r.chunkTimer then processChunk r else (r, none)

/-- The function `stopRecording` (lines 140-186) together with the `onstop` handler it
installs: `none` is `resolve(null)`, `some parts` are the parts of the resolved blob. -/
def stopRecording (r : Recorder) : Recorder × Option (List Blob) :=
  match r.mediaRecorder with
  | none => (r, none)
  | some _ =>
      let allData := r.allChunksRef ++ r.chunksRef
      ({ r with chunksRef := [], allChunksRef := [], chunkTimer := false,
                mediaRecorder := some .inactive },
       some allData)

/-- What can happen to the hook between `startRecording` and `stopRecording`. -/
inductive RecEvent where
  | data (b : Blob)
  | tick
  | flush
  | pause
  | resume
deriving DecidableEq, Repr

/-- One event applied to the hook, with the segment it emitted, if any. -/
def step (r : Recorder) : RecEvent → Recorder × Option Segment
  | .data b => (onDataAvailable r b, none)
  | .tick => chunkTimerTick r
  | .flush => flushChunk r
  | .pause => (pauseRecording r, none)
  | .resume => (resumeRecording r, none)

/-- A sequence of events applied in order, with the segments emitted, oldest first. -/
def run (r : Recorder) : List RecEvent → Recorder × List Segment
  | [] => (r, [])
  | e :: es =>
      let (r1, out) := step r e
      let (r2, rest) := run r1 es
      (r2, out.toList ++ rest)

/-- The non-empty buffers that arrived during a sequence of events, in arrival order. -/
def received : List RecEvent → List Blob
  | [] => []
  | .data b :: es => if b.size > 0 then b :: received es else received es
  | _ :: es => received es

/-- The buffers of a segment without the header that is put in front of the segments
with an index above 0. -/
def Segment.payload (s : Segment) : List Blob :=
  if s.index = 0 then s.blobParts else s.blobParts.tail

/-- The events of a sequence up to and including the last one that emitted a segment
(empty when none did), for the hook starting in state `r`. -/
def upToLastEmission (r : Recorder) : List RecEvent → List RecEvent
  | [] => []
  | e :: es =>
      match upToLastEmission (step r e).1 es with
      | [] => if (step r e).2.isSome then [e] else []
      | rest => e :: rest

/-- The events of a sequence after the last one that emitted a segment (all of them when
none did), for the hook starting in state `r`. -/
def sinceLastEmission (r : Recorder) (evs : List RecEvent) : List RecEvent :=
  evs.drop (upToLastEmission r evs).length

/-- The header invariant: before the first emission nothing has been moved to
`allChunksRef`; from the first emission on, `headerChunkRef` holds the first buffer of
`allChunksRef`. -/
def HeaderInv (r : Recorder) : Prop :=
  (r.chunkCountRef = 0 → r.allChunksRef = []) ∧
  (r.chunkCountRef ≠ 0 → r.allChunksRef ≠ [] ∧ r.headerChunkRef = r.allChunksRef.head?)

/-- The segments of the recordings made one after the other into one session, one list per
recording: each recording is a `startRecording`, a sequence of events and a
`stopRecording`, and the next one starts from the state the last one left (the context
keeps `currentSession` after `stopRecording`, line 218, so that the next recording goes
to the same session). -/
def sessionRecordings (r : Recorder) : List (Bool × List RecEvent) → List (List Segment)
  | [] => []
  | (liveMode, evs) :: rest =>
      (run (startRecording r liveMode) evs).2 ::
        sessionRecordings (stopRecording (run (startRecording r liveMode) evs).1).1 rest

/-- All segments emitted into a session over its recordings, oldest first. -/
def sessionSegments (r : Recorder) (recordings : List (Bool × List RecEvent)) : List Segment :=
  (sessionRecordings r recordings).flatten

/-! ## The live transcript (`src/renderer/context/RecordingContext.jsx`) -/

/-- Whether a character is removed by `String.prototype.trim` (white space and line
terminators of ECMAScript). -/
def isJsWhitespace (c : Char) : Bool :=
  let n := c.toNat
  n = 9 || n = 10 || n = 11 || n = 12 || n = 13 || n = 32 || n = 160 || n = 0x1680 ||
  (0x2000 ≤ n && n ≤ 0x200A) || n = 0x2028 || n = 0x2029 || n = 0x202F || n = 0x205F ||
  n = 0x3000 || n = 0xFEFF

/-- The function `trim` on the characters of a string. -/
def trimChars (l : List Char) : List Char :=
  ((l.dropWhile isJsWhitespace).reverse.dropWhile isJsWhitespace).reverse

/-- The method `String.prototype.trim`. -/
def jsTrim (s : String) : String := ⟨trimChars s.data⟩

/-- An entry of `liveTranscript`; `time` is the `new Date()` of its creation. -/
structure TranscriptItem where
  index : Nat
  text : String
  time : Nat
deriving DecidableEq, Repr

/-- The result object of the `transcribe-chunk` call as far as `handleChunk` reads it:
`text` is `none` when the property is absent. -/
structure TranscribeResult where
  success : Bool
  text : Option String
deriving DecidableEq, Repr

/-- The test `result.success && result.text && result.text.trim()` of `handleChunk`
(line 107), giving the trimmed text when it passes. -/
def acceptedText (result : TranscribeResult) : Option String :=
  match result.success, result.text with
  | true, some t => if t ≠ "" ∧ jsTrim t ≠ "" then some (jsTrim t) else none
  | _, _ => none

/-- The updater passed to `setLiveTranscript` (lines 109-112). -/
def appendTranscript (prev : List TranscriptItem) (chunkIndex : Nat) (newText : String)
    (now : Nat) : List TranscriptItem :=
  prev ++ [{ index := chunkIndex, text := newText, time := now }]

/-- The transcript merge of `handleChunk` (lines 107-112) for one transcription result. -/
def mergeTranscript (prev : List TranscriptItem) (chunkIndex : Nat) (result : TranscribeResult)
    (now : Nat) : List TranscriptItem :=
  match acceptedText result with
  | some newText => appendTranscript prev chunkIndex newText now
  | none => prev

/-- A transcription that completed: the index of its segment, its result and the time of
completion. -/
structure Completion where
  chunkIndex : Nat
  result : TranscribeResult
  now : Nat
deriving DecidableEq, Repr

/-- The live transcript after the given transcriptions completed in the given order,
starting from the empty transcript set by `startRecording`. -/
def liveTranscriptAfter (completions : List Completion) : List TranscriptItem :=
  completions.foldl (fun prev c => mergeTranscript prev c.chunkIndex c.result c.now) []

/-- The call `String(n).padStart(2, '0')` for a natural number. -/
def padStart2 (n : Nat) : String :=
  let s := toString n
  if s.length < 2 then String.mk (List.replicate (2 - s.length) '0') ++ s else s

/-- An element of `chunks` in the transcript data written by `stopRecording`. -/
structure SavedChunk where
  index : Nat
  text : String
  timestamp : String
deriving DecidableEq, Repr

/-- The `chunks` array built by `stopRecording` (lines 198-202). -/
def savedChunks (liveTranscript : List TranscriptItem) : List SavedChunk :=
  liveTranscript.map fun item =>
    { index := item.index
      text := item.text
      timestamp := padStart2 (item.index * 12 / 60) ++ ":" ++ padStart2 ((item.index * 12) % 60) }

/-! ## Entity extraction (`src/main/llm.js`) -/

/-- A JavaScript value as it can come out of `JSON.parse` or out of a property access on
such a value. Numbers are modelled by integers: this code only looks at whether a number
is zero. In `obj` the properties are listed in source order. -/
inductive JsValue where
  | undefined
  | null
  | bool (b : Bool)
  | num (n : Int)
  | str (s : String)
  | arr (xs : List JsValue)
  | obj (props : List (String × JsValue))
deriving Repr, Inhabited

/-- The property `key` of an object literal parsed by `JSON.parse`: the last occurrence of
a repeated key wins, a missing key reads `undefined`. -/
def lookupProp (key : String) : List (String × JsValue) → JsValue
  | [] => .undefined
  | (k, v) :: rest =>
      if rest.any (fun p => p.1 == key) then lookupProp key rest
      else if k = key then v else .undefined

/-- The property access `e.key` on a value that came out of `JSON.parse`: a `TypeError`
(`none`) on `null` and `undefined`, the property of an object, and `undefined` on the
other values, none of which has a property called `name`, `type` or `description`. -/
def getProp (e : JsValue) (key : String) : Option JsValue :=
  match e with
  | .undefined => none
  | .null => none
  | .obj props => some (lookupProp key props)
  | _ => some .undefined

/-- The boolean a value converts to in a condition. -/
def truthy : JsValue → Bool
  | .undefined => false
  | .null => false
  | .bool b => b
  | .num n => n != 0
  | .str s => s != ""
  | .arr _ => true
  | .obj _ => true

/-- The test `typeof v === 'string'`. -/
def isString : JsValue → Bool
  | .str _ => true
  | _ => false

/-- The test `['character', 'monster', 'place', 'item'].includes(v)`. -/
def isEntityType : JsValue → Bool
  | .str s => s = "character" || s = "monster" || s = "place" || s = "item"
  | _ => false

/-- The predicate given to `filter` (lines 151-155); `none` is a thrown `TypeError`. -/
def entityFilter (e : JsValue) : Option Bool :=
  match getProp e "name" with
  | none => none
  | some name =>
      if truthy name && isString name then
        match getProp e "type" with
        | none => none
        | some type => some (isEntityType type)
      else some false

/-- The method `Array.prototype.filter` with a predicate that may throw. -/
def jsFilter {α : Type} (p : α → Option Bool) : List α → Option (List α)
  | [] => some []
  | x :: xs =>
      match p x with
      | none => none
      | some keep =>
          match jsFilter p xs with
          | none => none
          | some rest => some (if keep then x :: rest else rest)

/-- The method `Array.prototype.map` with a function that may throw. -/
def jsMap {α β : Type} (f : α → Option β) : List α → Option (List β)
  | [] => some []
  | x :: xs =>
      match f x with
      | none => none
      | some y =>
          match jsMap f xs with
          | none => none
          | some rest => some (y :: rest)

/-- An element of the array returned by `extractEntities`. -/
structure Entity where
  name : String
  type : JsValue
  description : JsValue
deriving Repr

/-- The function given to `map` (lines 155-159); `none` is a thrown `TypeError`
(`e.name.trim` is only a function when `e.name` is a string). -/
def entityMap (e : JsValue) : Option Entity :=
  match getProp e "name", getProp e "type", getProp e "description" with
  | some (.str name), some type, some description =>
      some { name := jsTrim name
             type := type
             description := if truthy description then description else .str "" }
  | _, _, _ => none

/-- The length of the match of `pat` followed by the optional characters `opts`, each
taken greedily when present, at the start of `l`; 0 when `pat` does not match there. -/
def matchLength (pat : List Char) (opts : List Char) (l : List Char) : Nat :=
  if pat.isPrefixOf l then
    pat.length + (opts.foldl
      (fun (acc : Nat × List Char) c =>
        match acc.2 with
        | d :: ds => if d = c then (acc.1 + 1, ds) else acc
        | [] => acc)
      (0, l.drop pat.length)).1
  else 0

/-- The call `replace(re, '')` for a global regular expression `re` without empty matches:
scanning from the left, every match is removed; `skip` counts the characters of the
current match that are still to be removed. -/
def removeMatches (matchLen : List Char → Nat) : Nat → List Char → List Char
  | _, [] => []
  | skip + 1, _ :: cs => removeMatches matchLen skip cs
  | 0, c :: cs =>
      if matchLen (c :: cs) = 0 then c :: removeMatches matchLen 0 cs
      else removeMatches matchLen (matchLen (c :: cs) - 1) cs

/-- The clean-up of the model response before `JSON.parse` (lines 137-140): `trim`, and on a
response that starts with three backticks the two `replace` calls (the first pattern
reads: three backticks, `jso`, an optional `n`, an optional line feed) and `trim` again. -/
def cleanResponse (response : String) : String :=
  let jsonStr := jsTrim response
  if "```".data.isPrefixOf jsonStr.data then
    jsTrim ⟨removeMatches (matchLength "```".data []) 0
      (removeMatches (matchLength "```jso".data ['n', '\n']) 0 jsonStr.data)⟩
  else jsonStr

/-- The function `extractEntities` (lines 129-164) given the outcome of `chatCompletion`
(`none` when it rejects) and the built-in `JSON.parse` as `parse` (`none` when it throws).
Every exception ends in the `catch` that returns `[]`. -/
def extractEntities (parse : String → Option JsValue) (completion : Option String) :
    List Entity :=
  match completion with
  | none => []
  | some response =>
      match parse (cleanResponse response) with
      | none => []
      | some (.arr entities) =>
          match jsFilter entityFilter entities with
          | none => []
          | some kept =>
              match jsMap entityMap kept with
              | none => []
              | some result => result
      | some _ => []

/-- A stand-in for `JSON.parse` that knows one text: it parses `src` to `v` and throws on
every other text. -/
def parseOnly (src : String) (v : JsValue) : String → Option JsValue :=
  fun s => if s = src then some v else none

/-- The value `e` is an object whose properties `name`, `type` and `description` are the
strings `x.1`, `x.2.1` and `x.2.2`, with a name that is not blank and a type from the
enum. -/
def WellFormedEntity (e : JsValue) (x : String × String × String) : Prop :=
  (∃ props, e = .obj props ∧ lookupProp "name" props = .str x.1 ∧
    lookupProp "type" props = .str x.2.1 ∧ lookupProp "description" props = .str x.2.2) ∧
  jsTrim x.1 ≠ "" ∧ x.2.1 ∈ ["character", "monster", "place", "item"]

/-! ## Session entities (`RecordingContext.jsx`) and auto-created profiles (`main.js`) -/

/-- A model of `String.prototype.toLowerCase` on the letters `A` to `Z`; on strings of ASCII
characters it agrees with the built-in method. -/
def asciiLower (s : String) : String := ⟨s.data.map Char.toLower⟩

/-- The updater passed to `setDetectedEntities` (lines 129-135); `lower` is the built-in
`toLowerCase`. The names already present are collected once, before the batch is
filtered. -/
def mergeEntities (lower : String → String) (prev : List Entity) (batch : List Entity) :
    List Entity :=
  let existingNames := prev.map fun e => lower e.name
  let newEntities := batch.filter fun e => !(existingNames.contains (lower e.name))
  prev ++ newEntities

/-- The detected entities after the given batches were merged one after the other into
the empty list set by `startRecording`. -/
def detectedAfter (lower : String → String) (batches : List (List Entity)) : List Entity :=
  batches.foldl (mergeEntities lower) []

/-- A profile file written by `process-entities` (lines 845-853). -/
structure Profile where
  id : String
  campaignId : String
  name : String
  type : JsValue
  description : JsValue
  created : Nat
  autoGenerated : Bool
deriving Repr

/-- The `.json` files in the profiles directory of a campaign, parsed, in the order of
`readdirSync`, and the number of ids that `generateId` has handed out so far. -/
structure ProfileStore where
  files : List Profile
  idsUsed : Nat
deriving Repr

/-- The call `fs.writeFileSync(path.join(profilesPath, profileId + '.json'), ...)`: a file of
the same name is replaced, otherwise the file is added. -/
def writeProfile (files : List Profile) (p : Profile) : List Profile :=
  if files.any (fun q => q.id == p.id) then files.map (fun q => if q.id = p.id then p else q)
  else files ++ [p]

/-- The state of the loop of `process-entities` (lines 837-865). -/
structure ProcessLoop where
  store : ProfileStore
  existingNames : List String
  newProfiles : List Profile

/-- One iteration of the loop of `process-entities` (lines 837-865); `genId n` is the
result of the `n`-th call of `generateId` and `now` the clock. -/
def processEntity (lower : String → String) (genId : Nat → String) (campaignId : String)
    (now : Nat) (st : ProcessLoop) (entity : Entity) : ProcessLoop :=
  if st.existingNames.contains (lower entity.name) then st
  else
    let profile : Profile :=
      { id := genId st.store.idsUsed
        campaignId := campaignId
        name := entity.name
        type := entity.type
        description := entity.description
        created := now
        autoGenerated := true }
    { store := { files := writeProfile st.store.files profile, idsUsed := st.store.idsUsed + 1 }
      existingNames := st.existingNames ++ [lower entity.name]
      newProfiles := st.newProfiles ++ [profile] }

/-- The result of a successful `process-entities` call. -/
structure ProcessResult where
  newProfiles : List Profile
  totalProcessed : Nat

/-- The handler `process-entities` (lines 815-877) on a profiles directory that holds
profile files: the store it leaves and the object it returns. The detached
`generateProfileImage` only adds an image path to a profile file later on and is left
out. -/
def processEntities (lower : String → String) (genId : Nat → String) (campaignId : String)
    (now : Nat) (store : ProfileStore) (entities : List Entity) : ProfileStore × ProcessResult :=
  let start : ProcessLoop :=
    { store := store, existingNames := store.files.map (fun p => lower p.name), newProfiles := [] }
  let final := entities.foldl (processEntity lower genId campaignId now) start
  (final.store, { newProfiles := final.newProfiles, totalProcessed := entities.length })

/-- The store after a sequence of `process-entities` calls. -/
def processAll (lower : String → String) (genId : Nat → String) (campaignId : String)
    (now : Nat) (store : ProfileStore) (calls : List (List Entity)) : ProfileStore :=
  calls.foldl (fun st entities => (processEntities lower genId campaignId now st entities).1) store

/-- The entities of an input list for which a profile is to be created, in the words of the
specification: those whose case-folded name is not among the stored names and differs from
the case-folded names of all `earlier` entities of the input. -/
def firstNewEntities (lower : String → String) (storedNames : List String) :
    List Entity → List Entity → List Entity
  | _, [] => []
  | earlier, e :: es =>
      (if lower e.name ∉ storedNames ∧ lower e.name ∉ earlier.map (fun x => lower x.name)
        then [e] else []) ++
      firstNewEntities lower storedNames (earlier ++ [e]) es

/-- The case-folded names of the stored profiles are pairwise distinct. -/
def DistinctNames (lower : String → String) (files : List Profile) : Prop :=
  (files.map fun p => lower p.name).Nodup

/-- The ids that `generateId` hands out from now on are fresh: pairwise distinct and
different from the ids of the stored profiles. -/
def FreshIds (genId : Nat → String) (store : ProfileStore) : Prop :=
  (∀ m n, store.idsUsed ≤ m → store.idsUsed ≤ n → genId m = genId n → m = n) ∧
  (∀ n, store.idsUsed ≤ n → ∀ p ∈ store.files, p.id ≠ genId n)

/-- The invariant of the loop of `process-entities` after the entities `earlier` of the
input were handled, for a store that held `files0` with the case-folded names
`storedNames` and had used `ids0` ids when the call began. -/
def ProcessLoopInv (lower : String → String) (genId : Nat → String) (files0 : List Profile)
    (storedNames : List String) (ids0 : Nat) (earlier : List Entity) (st : ProcessLoop) : Prop :=
  (∀ x, x ∈ st.existingNames ↔ x ∈ storedNames ∨ x ∈ earlier.map (fun e => lower e.name)) ∧
  DistinctNames lower st.store.files ∧
  (∀ p ∈ st.store.files, lower p.name ∈ st.existingNames) ∧
  FreshIds genId st.store ∧
  st.store.files = files0 ++ st.newProfiles ∧
  st.store.idsUsed = ids0 + st.newProfiles.length

/-! ## Scene prompts (`src/main/llm.js`) -/

/-- The UTF-16 code units of a character: one unit for a character of the basic plane, a
surrogate pair for a character above it. -/
def utf16Char (c : Char) : List Nat :=
  if c.toNat < 0x10000 then [c.toNat]
  else [0xD800 + (c.toNat - 0x10000) / 0x400, 0xDC00 + (c.toNat - 0x10000) % 0x400]

/-- The JavaScript string with the given text, as the sequence of its UTF-16 code units.
A JavaScript string is such a sequence (any sequence, lone surrogates included), and
`length`, `slice` and the positions of a string count code units. -/
def utf16 (s : String) : List Nat := (s.data.map utf16Char).flatten

/-- Whether a code unit is removed by `String.prototype.trim` (white space and line
terminators of ECMAScript, all of them single code units). -/
def isJsWhitespaceUnit (n : Nat) : Bool :=
  n = 9 || n = 10 || n = 11 || n = 12 || n = 13 || n = 32 || n = 160 || n = 0x1680 ||
  (0x2000 ≤ n && n ≤ 0x200A) || n = 0x2028 || n = 0x2029 || n = 0x202F || n = 0x205F ||
  n = 0x3000 || n = 0xFEFF

/-- The method `String.prototype.trim` on the code units of a string. -/
def trimUnits (l : List Nat) : List Nat :=
  ((l.dropWhile isJsWhitespaceUnit).reverse.dropWhile isJsWhitespaceUnit).reverse

/-- The call `s.slice(0, n)` on the code units of a string: its first `n` code units, or
all of them when there are fewer. -/
def jsSliceFrom0 (s : List Nat) (n : Nat) : List Nat := s.take n

/-- The function `generateScenePrompt` (lines 198-222) on strings given by their UTF-16
code units, given the outcome of `chatCompletion` (`none` when it fails): the trimmed
response, or the templated prompt of the `catch`. -/
def generateScenePrompt (sceneText : List Nat) (completion : Option (List Nat)) : List Nat :=
  match completion with
  | some response => trimUnits response
  | none =>
      utf16 "Fantasy RPG scene: " ++ jsSliceFrom0 sceneText 100 ++
        utf16 ", dramatic lighting, detailed fantasy art"

/-! ## The coordinator (`handleChunk` and `generateChunkImage` of `RecordingContext.jsx`) -/

/-- An entry of the object `chunkImages`. -/
structure ChunkImage where
  loading : Bool
  image : Option String
  prompt : Option String
  error : Option String
deriving DecidableEq, Repr

/-- The object returned by the `extract-entities` call. -/
structure ExtractResult where
  success : Bool
  entities : List Entity

/-- The object returned by the `generate-scene-prompt` call. -/
structure PromptResult where
  success : Bool
  prompt : Option String

/-- The object returned by the `sd-generate-image` call. -/
structure SdResult where
  success : Bool
  image_base64 : Option String
  seed : Option Int
  error : Option String

/-- A call of a collaborator through `window.electronAPI`; every `await` of the two
functions waits for one of these calls. -/
inductive Call where
  | transcribeChunk (chunkIndex : Nat)
  | extractEntities (text : String)
  | processEntities (entities : List Entity)
  | generateScenePrompt (text : String)
  | sdGenerateImage (prompt : String)
  | saveGeneratedImage (chunkIndex : Nat) (image : String) (prompt : String)

/-- Whether a call is a call of `sdGenerateImage`. -/
def Call.isSdGenerateImage : Call → Bool
  | .sdGenerateImage _ => true
  | _ => false

/-- The `await` at which a `handleChunk` call is suspended, with what its continuation
still reads from the closure. -/
inductive HandlePhase where
  | awaitTranscribe
  | awaitExtract
  | awaitProcess (entities : List Entity)

/-- The `await` at which a `generateChunkImage` call is suspended. -/
inductive ImagePhase where
  | awaitPrompt (text : String)
  | awaitSd (imagePrompt : String)
  | awaitSave

/-- Whether a suspended `handleChunk` call waits for the transcription. -/
def HandlePhase.isTranscribe : HandlePhase → Bool
  | .awaitTranscribe => true
  | _ => false

/-- Whether a suspended `handleChunk` call waits for `extractEntities`. -/
def HandlePhase.isExtract : HandlePhase → Bool
  | .awaitExtract => true
  | _ => false

/-- Whether a suspended `handleChunk` call waits for `processEntities`. -/
def HandlePhase.isProcess : HandlePhase → Bool
  | .awaitProcess _ => true
  | _ => false

/-- Whether a suspended `generateChunkImage` call waits for `generateScenePrompt`. -/
def ImagePhase.isPrompt : ImagePhase → Bool
  | .awaitPrompt _ => true
  | _ => false

/-- Whether a suspended `generateChunkImage` call waits for `sdGenerateImage`. -/
def ImagePhase.isSd : ImagePhase → Bool
  | .awaitSd _ => true
  | _ => false

/-- Whether a suspended `generateChunkImage` call waits for `saveGeneratedImage`. -/
def ImagePhase.isSave : ImagePhase → Bool
  | .awaitSave => true
  | _ => false

/-- The state and refs of `RecordingProvider` that the two functions read and write, and
the calls that are suspended at an `await`: `session` and `campaign` say whether
`currentSessionRef.current` and `activeCampaignRef.current` are set, `llmReady` is
`llmStatusRef.current?.status === 'ready'`, `sdSuccess` is `sdStatusRef.current?.success`. -/
structure Coordinator where
  session : Bool
  campaign : Bool
  autoDetect : Bool
  autoGenerateImages : Bool
  llmReady : Bool
  sdSuccess : Bool
  processingChunk : Bool
  liveTranscript : List TranscriptItem
  detectedEntities : List Entity
  chunkImages : Nat → Option ChunkImage
  handles : List (Nat × HandlePhase)
  images : List (Nat × ImagePhase)

/-- The provider with a session and a campaign selected and nothing in flight, as
`startRecording` of the context leaves it. -/
def Coordinator.start (autoDetect autoGenerateImages llmReady sdSuccess : Bool) : Coordinator :=
  { session := true, campaign := true, autoDetect := autoDetect,
    autoGenerateImages := autoGenerateImages, llmReady := llmReady, sdSuccess := sdSuccess,
    processingChunk := false, liveTranscript := [], detectedEntities := [],
    chunkImages := fun _ => none, handles := [], images := [] }

/-- The update `{ ...prev, [chunkIndex]: entry }` of `chunkImages`. -/
def setChunkImage (prev : Nat → Option ChunkImage) (chunkIndex : Nat) (entry : ChunkImage) :
    Nat → Option ChunkImage :=
  fun k => if k = chunkIndex then some entry else prev k

/-- The first element of a list that satisfies `p`, with the list without it. -/
def takeFirst {α : Type} (p : α → Bool) : List α → Option (α × List α)
  | [] => none
  | x :: xs =>
      if p x then some (x, xs)
      else match takeFirst p xs with
        | some (y, rest) => some (y, x :: rest)
        | none => none

/-- The entry written by the `catch` of `generateChunkImage` (lines 87-90). -/
def errorImage (message : String) : ChunkImage :=
  { loading := false, image := none, prompt := none, error := some message }

/-- The function `generateChunkImage` up to its first `await` (lines 40-60): nothing without
a healthy image service; otherwise the entry is marked as loading and either
`generateScenePrompt` is called (language model ready) or `sdGenerateImage` is called
with the text itself. -/
def generateChunkImage (s : Coordinator) (chunkIndex : Nat) (text : String) :
    Coordinator × List Call :=
  if !s.sdSuccess then (s, [])
  else
    let chunkImages := setChunkImage s.chunkImages chunkIndex
      { loading := true, image := none, prompt := none, error := none }
    if s.llmReady then
      ({ s with chunkImages := chunkImages, images := s.images ++ [(chunkIndex, .awaitPrompt text)] },
       [.generateScenePrompt text])
    else
      ({ s with chunkImages := chunkImages, images := s.images ++ [(chunkIndex, .awaitSd text)] },
       [.sdGenerateImage text])

/-- What happens to the provider: `handleChunk` is called for a segment, or a collaborator
call of a suspended function settles (`.error message` when it rejects). -/
inductive CEvent where
  | chunk (chunkIndex : Nat)
  | transcribeDone (chunkIndex : Nat) (outcome : Except String TranscribeResult) (now : Nat)
  | extractDone (chunkIndex : Nat) (outcome : Except String ExtractResult)
  | processDone (chunkIndex : Nat) (outcome : Except String Bool)
  | promptDone (chunkIndex : Nat) (outcome : Except String PromptResult)
  | sdDone (chunkIndex : Nat) (outcome : Except String SdResult)
  | saveDone (chunkIndex : Nat) (outcome : Except String Unit)

/-- The `finally` of `handleChunk` (lines 142-144), with the call `rest` left suspended. -/
def finishHandle (s : Coordinator) (rest : List (Nat × HandlePhase)) : Coordinator :=
  { s with processingChunk := false, handles := rest }

/-- The continuation of `handleChunk` after `transcribeChunk` returned `result` (lines
107-139, up to the next `await`). -/
def afterTranscribe (s : Coordinator) (rest : List (Nat × HandlePhase)) (chunkIndex : Nat)
    (result : TranscribeResult) (now : Nat) : Coordinator × List Call :=
  match acceptedText result with
  | none => (finishHandle s rest, [])
  | some newText =>
      let s1 := { s with liveTranscript := appendTranscript s.liveTranscript chunkIndex newText now }
      let (s2, calls) :=
        if s1.autoGenerateImages && s1.sdSuccess then generateChunkImage s1 chunkIndex newText
        else (s1, [])
      if s2.autoDetect && s2.llmReady then
        ({ s2 with handles := rest ++ [(chunkIndex, .awaitExtract)] },
         calls ++ [.extractEntities newText])
      else (finishHandle s2 rest, calls)

/-- One step of the provider: the code that runs between two `await`s, with the collaborator
calls it makes. An event for which no call is suspended does nothing. -/
def cstep (lower : String → String) (s : Coordinator) : CEvent → Coordinator × List Call
  | .chunk i =>
      if !s.session then (s, [])
      else
        ({ s with processingChunk := true, handles := s.handles ++ [(i, .awaitTranscribe)] },
         [.transcribeChunk i])
  | .transcribeDone i outcome now =>
      match takeFirst (fun t => t.1 == i && t.2.isTranscribe) s.handles with
      | none => (s, [])
      | some (_, rest) =>
          match outcome with
          | .error _ => (finishHandle s rest, [])
          | .ok result => afterTranscribe s rest i result now
  | .extractDone i outcome =>
      match takeFirst (fun t => t.1 == i && t.2.isExtract) s.handles with
      | none => (s, [])
      | some (_, rest) =>
          match outcome with
          | .error _ => (finishHandle s rest, [])
          | .ok entityResult =>
              if entityResult.success && entityResult.entities.length > 0 then
                ({ s with handles := rest ++ [(i, .awaitProcess entityResult.entities)] },
                 [.processEntities entityResult.entities])
              else (finishHandle s rest, [])
  | .processDone i outcome =>
      match takeFirst (fun t => t.1 == i && t.2.isProcess) s.handles with
      | some ((_, .awaitProcess entities), rest) =>
          match outcome with
          | .ok true =>
              (finishHandle
                { s with detectedEntities := mergeEntities lower s.detectedEntities entities } rest,
               [])
          | _ => (finishHandle s rest, [])
      | _ => (s, [])
  | .promptDone i outcome =>
      match takeFirst (fun t => t.1 == i && t.2.isPrompt) s.images with
      | some ((_, .awaitPrompt text), rest) =>
          match outcome with
          | .error message =>
              ({ s with chunkImages := setChunkImage s.chunkImages i (errorImage message),
                        images := rest }, [])
          | .ok promptResult =>
              let imagePrompt :=
                match promptResult.success, promptResult.prompt with
                | true, some prompt => if prompt ≠ "" then prompt else text
                | _, _ => text
              ({ s with images := rest ++ [(i, .awaitSd imagePrompt)] },
               [.sdGenerateImage imagePrompt])
      | _ => (s, [])
  | .sdDone i outcome =>
      match takeFirst (fun t => t.1 == i && t.2.isSd) s.images with
      | some ((_, .awaitSd imagePrompt), rest) =>
          match outcome with
          | .error message =>
              ({ s with chunkImages := setChunkImage s.chunkImages i (errorImage message),
                        images := rest }, [])
          | .ok result =>
              match result.success, result.image_base64 with
              | true, some image =>
                  if image ≠ "" then
                    let chunkImages := setChunkImage s.chunkImages i
                      { loading := false, image := some image, prompt := some imagePrompt,
                        error := none }
                    if s.session && s.campaign then
                      ({ s with chunkImages := chunkImages, images := rest ++ [(i, .awaitSave)] },
                       [.saveGeneratedImage i image imagePrompt])
                    else ({ s with chunkImages := chunkImages, images := rest }, [])
                  else
                    ({ s with
                        chunkImages := setChunkImage s.chunkImages i
                          { loading := false, image := none, prompt := none, error := result.error },
                        images := rest }, [])
              | _, _ =>
                  ({ s with
                      chunkImages := setChunkImage s.chunkImages i
                        { loading := false, image := none, prompt := none, error := result.error },
                      images := rest }, [])
      | _ => (s, [])
  | .saveDone i outcome =>
      match takeFirst (fun t => t.1 == i && t.2.isSave) s.images with
      | none => (s, [])
      | some (_, rest) =>
          match outcome with
          | .error message =>
              ({ s with chunkImages := setChunkImage s.chunkImages i (errorImage message),
                        images := rest }, [])
          | .ok _ => ({ s with images := rest }, [])

/-- A sequence of events applied in order, with the collaborator calls made, oldest first. -/
def crun (lower : String → String) (s : Coordinator) : List CEvent → Coordinator × List Call
  | [] => (s, [])
  | e :: es =>
      ((crun lower (cstep lower s e).1 es).1,
       (cstep lower s e).2 ++ (crun lower (cstep lower s e).1 es).2)

/-- The number of entries of a transcript for the segment index `i`. -/
def entriesFor (i : Nat) (liveTranscript : List TranscriptItem) : Nat :=
  (liveTranscript.filter fun item => item.index == i).length

/-- The transcription of a segment failed: the call rejected or returned `success: false`. -/
def TranscriptionFailed : Except String TranscribeResult → Prop
  | .error _ => True
  | .ok result => result.success = false

/-! ## Session images (`main.js`, `Images.jsx`) -/

/-- The metadata object written next to a generated image (lines 712-721); `created` is
the time of `new Date()` in milliseconds, `chunkIndex` is `none` when the property is
absent. -/
structure ImageData where
  id : String
  path : String
  prompt : String
  seed : Int
  chunkIndex : Option Nat
  chunkText : String
  timestamp : String
  created : Nat
deriving DecidableEq, Repr

/-- The `metadata` argument of `save-generated-image`; `none` is an absent property. -/
structure ImageMetadata where
  prompt : Option String
  seed : Option Int
  chunkIndex : Option Nat
  chunkText : Option String
  timestamp : Option String
deriving DecidableEq, Repr

/-- The record built by `save-generated-image` (lines 704-721) for the id `imageId` handed
out by `generateId` at the time `now`. -/
def imageRecord (imagesDir : String) (imageId : String) (metadata : ImageMetadata) (now : Nat) :
    ImageData :=
  { id := imageId
    path := imagesDir ++ "/" ++ imageId ++ ".png"
    prompt := metadata.prompt.getD ""
    seed := metadata.seed.getD 0
    chunkIndex := metadata.chunkIndex
    chunkText := metadata.chunkText.getD ""
    timestamp := metadata.timestamp.getD ""
    created := now }

/-- The handler `save-generated-image` (lines 694-730) on the metadata files of the images
directory: the file named after the id is written (replaced when it exists). -/
def saveGeneratedImage (imagesDir : String) (files : List ImageData) (imageId : String)
    (metadata : ImageMetadata) (now : Nat) : List ImageData :=
  if files.any (fun f => f.id == imageId) then
    files.map (fun f => if f.id = imageId then imageRecord imagesDir imageId metadata now else f)
  else files ++ [imageRecord imagesDir imageId metadata now]

/-- The call `sort((a, b) => new Date(b.created) - new Date(a.created))`: a stable sort
that puts the later creation time first. -/
def sortNewestFirst (images : List ImageData) : List ImageData :=
  images.insertionSort (fun a b => b.created ≤ a.created)

/-- The images returned by `get-session-images` (lines 732-758) for the metadata files in
the order `listing` in which `readdirSync` lists them; the `url` that is attached to each
record is left out. -/
def getSessionImages (listing : List ImageData) : List ImageData :=
  sortNewestFirst listing

/-- The function `getImagesForChunk` of the images page (lines 176-180). -/
def getImagesForChunk (images : List ImageData) (chunkIndex : Nat) : List ImageData :=
  sortNewestFirst (images.filter fun img => img.chunkIndex == some chunkIndex)

/-! ## Pausing, offsets and labels -/

/-- Whether an event is neither `resumeRecording` nor `flushChunk`. -/
def RecEvent.keepsPaused : RecEvent → Bool
  | .resume => false
  | .flush => false
  | _ => true

/-- The element at position `k` of a list together with the other elements, in order. -/
def takeAt {α : Type} : Nat → List α → Option (α × List α)
  | _, [] => none
  | 0, x :: xs => some (x, xs)
  | k + 1, x :: xs => (takeAt k xs).map fun p => (p.1, x :: p.2)

/-- The hook together with the calls of `processChunk` that are suspended at
`await chunkBlob.arrayBuffer()` (line 68): for each of them the segment that it hands to
`onChunk` when it continues (line 69), oldest first. -/
structure RecorderAsync where
  recorder : Recorder
  awaiting : List Segment
deriving DecidableEq, Repr

/-- An event of the hook, or the continuation of the suspended `processChunk` call at
position `k` among the suspended ones, when its `arrayBuffer()` promise has resolved. -/
inductive AsyncEvent where
  | hook (e : RecEvent)
  | arrayBufferReady (k : Nat)
deriving DecidableEq, Repr

/-- Whether an event is neither `resumeRecording` nor `flushChunk`. -/
def AsyncEvent.keepsPaused : AsyncEvent → Bool
  | .hook e => e.keepsPaused
  | .arrayBufferReady _ => true

/-- One event with the asynchronous end of `processChunk` (lines 67-70): the new state,
the segment that `processChunk` built, if any, and the segment handed to `onChunk`, if any.
A segment that is built is handed to `onChunk` only later, when its `arrayBuffer()` promise
has resolved, and only when `onChunkRef.current` was set when it was built. -/
def asyncStep (a : RecorderAsync) : AsyncEvent → RecorderAsync × Option Segment × Option Segment
  | .hook e =>
      ({ recorder := (step a.recorder e).1
         awaiting :=
           if a.recorder.onChunk then a.awaiting ++ (step a.recorder e).2.toList
           else a.awaiting },
       (step a.recorder e).2, none)
  | .arrayBufferReady k =>
      match takeAt k a.awaiting with
      | some (seg, rest) => ({ a with awaiting := rest }, none, some seg)
      | none => (a, none, none)

/-- A sequence of events applied in order, with the segments built and the segments handed
to `onChunk`, each oldest first. -/
def asyncRun (a : RecorderAsync) : List AsyncEvent → RecorderAsync × List Segment × List Segment
  | [] => (a, [], [])
  | e :: es =>
      ((asyncRun (asyncStep a e).1 es).1,
       (asyncStep a e).2.1.toList ++ (asyncRun (asyncStep a e).1 es).2.1,
       (asyncStep a e).2.2.toList ++ (asyncRun (asyncStep a e).1 es).2.2)

/-- The events of `n` seconds of capture that is not paused, with `start(1000)` delivering
one buffer per second. -/
def secondsOfCapture (n : Nat) : List RecEvent :=
  List.replicate n (.data ⟨[1]⟩)

/-- The number of buffers of the full capture that come before the payload of the segment
with index `k`, for the segments of a recording in the order of emission. -/
def startOffset (segments : List Segment) (k : Nat) : Nat :=
  ((segments.take k).flatMap Segment.payload).length

/-- A number in decimal, with a leading zero when it has one digit: the words of the
specification for `padStart(2, '0')`. -/
def twoDigits (n : Nat) : String :=
  if n < 10 then "0" ++ toString n else toString n

/-- The label `MM:SS` of the segment index `i` in the words of the specification. -/
def timestampLabel (i : Nat) : String :=
  twoDigits (12 * i / 60) ++ ":" ++ twoDigits (12 * i % 60)

/-! ## More on entity extraction and illustration -/

/-- A stand-in for `JSON.parse` that knows the texts of a table and throws on every other
text. -/
def parseTable (table : List (String × JsValue)) : String → Option JsValue :=
  fun s => (table.find? fun entry => entry.1 == s).map Prod.snd

/-- The handler `extract-entities` (`main.js`, lines 787-794): `extractEntities` does not
throw, so the `catch` of the handler is never entered. -/
def extractEntitiesHandler (parse : String → Option JsValue) (completion : Option String) :
    ExtractResult :=
  { success := true, entities := extractEntities parse completion }

/-- Whether a value is an array (`Array.isArray`). -/
def JsValue.isArray : JsValue → Bool
  | .arr _ => true
  | _ => false

/-- A call is not a call of `sdGenerateImage` with the empty string as its prompt. -/
def Call.promptNotEmpty : Call → Bool
  | .sdGenerateImage prompt => prompt != ""
  | _ => true

/-- The text or prompt kept by a suspended `generateChunkImage` call is not empty. -/
def ImagePhase.textNotEmpty : ImagePhase → Bool
  | .awaitPrompt text => text != ""
  | .awaitSd imagePrompt => imagePrompt != ""
  | .awaitSave => true

/-! ## Session files (`main.js`, `RecordingContext.jsx`, `SessionDetail.jsx`) -/

/-- A JavaScript number that is a non-negative integer or `Infinity`: the numbers that
`parseInt` gives for a run of digits, and their maxima and successors. In `finite n` the
integer `n` is a double-precision value. -/
inductive JsNumber where
  | finite (n : Nat)
  | infinity
deriving DecidableEq, Repr

/-- The number of binary digits of `n`, counted in at most `fuel` halvings. -/
def bitLengthAux : Nat → Nat → Nat
  | 0, _ => 0
  | fuel + 1, n => if n = 0 then 0 else bitLengthAux fuel (n / 2) + 1

/-- The number of binary digits of a number. -/
def bitLength (n : Nat) : Nat := bitLengthAux n n

/-- The Number value for a non-negative integer: the integer itself when it has at most 53
binary digits, and otherwise the nearest number with a significand of 53 binary digits, a
tie going to the even significand, or `Infinity` when that number would be `2 ^ 1024`. -/
def roundToDouble (n : Nat) : JsNumber :=
  if bitLength n ≤ 53 then .finite n
  else
    let e := bitLength n - 53
    let q := n / 2 ^ e
    let r := n % 2 ^ e
    let q1 := if r > 2 ^ (e - 1) ∨ (r = 2 ^ (e - 1) ∧ q % 2 = 1) then q + 1 else q
    if bitLength (q1 * 2 ^ e) > 1024 then .infinity else .finite (q1 * 2 ^ e)

/-- The integer that a string of decimal digits spells. -/
def decimalValue (digits : List Char) : Nat :=
  digits.foldl (fun acc c => acc * 10 + (c.toNat - 48)) 0

/-- The call `parseInt(digits)` for a non-empty string of decimal digits: the Number value
for the integer they spell, all digits counting, as the V8 engine computes it. -/
def parseInt (digits : List Char) : JsNumber := roundToDouble (decimalValue digits)

/-- The greater of two numbers, as `Math.max` takes it. -/
def JsNumber.max : JsNumber → JsNumber → JsNumber
  | .finite a, .finite b => .finite (Nat.max a b)
  | _, _ => .infinity

/-- The sum `x + 1`: the Number value for the exact sum. -/
def JsNumber.addOne : JsNumber → JsNumber
  | .finite n => roundToDouble (n + 1)
  | .infinity => .infinity

/-- The number of decimal digits of `n`, counted in at most `fuel` divisions. -/
def digitCountAux : Nat → Nat → Nat
  | 0, _ => 0
  | fuel + 1, n => if n = 0 then 0 else digitCountAux fuel (n / 10) + 1

/-- The number of decimal digits of a number (0 for the number 0). -/
def digitCount (n : Nat) : Nat := digitCountAux n n

/-- The search of `Number::toString` for the decimal with the fewest significant digits
whose Number value is `x`, for `x` with `n` decimal digits: with `k` significant digits
the candidates are the multiples of `10 ^ (n - k)` next to `x`; of two that qualify the
nearer to `x` is taken, and the one with the even last digit when they are equally near;
when none qualifies, one more digit is tried. -/
def shortestDecimalAux (x n : Nat) : Nat → Nat → Nat
  | 0, _ => x
  | fuel + 1, k =>
      let p := 10 ^ (n - k)
      let lo := x / p * p
      let hi := lo + p
      if roundToDouble lo = .finite x ∧ roundToDouble hi = .finite x then
        if x - lo < hi - x ∨ (x - lo = hi - x ∧ (lo / p) % 2 = 0) then lo else hi
      else if roundToDouble lo = .finite x then lo
      else if roundToDouble hi = .finite x then hi
      else shortestDecimalAux x n fuel (k + 1)

/-- The integer with the fewest significant decimal digits whose Number value is the
double-precision integer `x`. -/
def shortestDecimal (x : Nat) : Nat := shortestDecimalAux x (digitCount x) (digitCount x) 1

/-- The digits of a number without the zeros at their end. -/
def dropTrailingZeros (l : List Char) : List Char :=
  (l.reverse.dropWhile (· = '0')).reverse

/-- The string of a number in a template literal (`Number::toString`): `Infinity`; below
`10 ^ 21` the shortest decimal with that Number value, written out in full; and from
`10 ^ 21` on its digits with a point after the first one and the exponent. -/
def jsNumberToString : JsNumber → String
  | .infinity => "Infinity"
  | .finite x =>
      if digitCount (shortestDecimal x) ≤ 21 then toString (shortestDecimal x)
      else
        ⟨(dropTrailingZeros (toString (shortestDecimal x)).data).take 1 ++
          (if (dropTrailingZeros (toString (shortestDecimal x)).data).length > 1 then
            '.' :: (dropTrailingZeros (toString (shortestDecimal x)).data).drop 1
           else []) ++
          "e+".data ++ (toString (digitCount (shortestDecimal x) - 1)).data⟩

/-- A match of the regular expression `pre(\d+)ext`, for literal `pre` and `ext`, at the
start of a text, followed by `parseInt(match[1])`: the number of the digits captured by the
group. The digits are taken greedily; taking fewer of them cannot help, since `ext` would
then have to begin with a digit. -/
def matchNumberAt (pre ext l : List Char) : Option JsNumber :=
  if pre.isPrefixOf l then
    let digits := (l.drop pre.length).takeWhile Char.isDigit
    let rest := (l.drop pre.length).dropWhile Char.isDigit
    if digits ≠ [] ∧ ext.isPrefixOf rest then some (parseInt digits) else none
  else none

/-- The call `f.match(/pre(\d+)ext/)` followed by `parseInt(match[1])`: the leftmost match
in the text, `none` when there is no match. -/
def matchNumber (pre ext : List Char) : List Char → Option JsNumber
  | [] => matchNumberAt pre ext []
  | c :: cs =>
      match matchNumberAt pre ext (c :: cs) with
      | some n => some n
      | none => matchNumber pre ext cs

/-- The numbers of the existing files (lines 257-262 and 287-292): the names that start
with `pre` and end with `ext`, each mapped to the number matched in it, or to 0. -/
def existingNumbers (pre ext : String) (names : List String) : List JsNumber :=
  (names.filter fun f => pre.data.isPrefixOf f.data && ext.data.isSuffixOf f.data).map
    fun f => (matchNumber pre.data ext.data f.data).getD (.finite 0)

/-- The number chosen for the new file (lines 255-266 and 285-296): 1 when there are no
existing numbers, and otherwise `Math.max(...existing) + 1`, computed on JavaScript
numbers. -/
def nextNumber (pre ext : String) (names : List String) : JsNumber :=
  match existingNumbers pre ext names with
  | [] => .finite 1
  | n :: ns => (ns.foldl JsNumber.max n).addOne

/-- The name of the file with the number `n`, as the template literal builds it. -/
def numberedName (pre : String) (n : JsNumber) (ext : String) : String :=
  pre ++ jsNumberToString n ++ ext

/-- The content of the file `name` of a directory, `none` when there is no such file. -/
def readFile {α : Type} (dir : List (String × α)) (name : String) : Option α :=
  (dir.find? fun f => f.1 == name).map Prod.snd

/-- The call `fs.writeFileSync` in an existing directory: the file is replaced when it
exists and added otherwise. -/
def writeFile {α : Type} (dir : List (String × α)) (name : String) (content : α) :
    List (String × α) :=
  if dir.any (fun f => f.1 == name) then
    dir.map (fun f => if f.1 = name then (name, content) else f)
  else dir ++ [(name, content)]

/-- The handler `update-session-audio` (lines 252-280) on the files of an existing session
directory: the directory it leaves and the `recordingNumber` it returns. -/
def updateSessionAudio {α : Type} (dir : List (String × α)) (buffer : α) :
    List (String × α) × JsNumber :=
  let recordingNum := nextNumber "recording-" ".webm" (dir.map Prod.fst)
  (writeFile (writeFile dir (numberedName "recording-" recordingNum ".webm") buffer)
      "audio.webm" buffer,
   recordingNum)

/-- The handler `save-live-transcript` (lines 282-319) on the files of an existing session
directory: the directory it leaves and the `transcriptNumber` it returns; `mark` sets the
two flags in the content of `session.json`. -/
def saveLiveTranscript {α : Type} (mark : α → α) (dir : List (String × α))
    (transcriptData : α) : List (String × α) × JsNumber :=
  let transcriptNum := nextNumber "transcript-" ".json" (dir.map Prod.fst)
  let dir1 := writeFile dir (numberedName "transcript-" transcriptNum ".json") transcriptData
  let dir2 := writeFile dir1 "transcript-live.json" transcriptData
  let dir3 :=
    match readFile dir2 "session.json" with
    | some session => writeFile dir2 "session.json" (mark session)
    | none => dir2
  (dir3, transcriptNum)

/-- The object `transcriptData` built by `stopRecording` of the context (lines 194-204). -/
structure TranscriptData where
  created : Nat
  duration : Nat
  chunks : List SavedChunk
  entities : List Entity

/-- The saving part of `stopRecording` of the context (lines 187-211): with a blob and a
session, the audio is saved, and the transcript is saved when the live transcript is not
empty. `encodeAudio` and `encodeTranscript` turn the blob and the transcript data into
file contents. -/
def saveRecording {α : Type} (mark : α → α) (encodeAudio : List Blob → α)
    (encodeTranscript : TranscriptData → α) (dir : List (String × α))
    (audioBlob : Option (List Blob)) (session : Bool) (liveTranscript : List TranscriptItem)
    (detectedEntities : List Entity) (duration now : Nat) : List (String × α) :=
  match audioBlob, session with
  | some parts, true =>
      let dir1 := (updateSessionAudio dir (encodeAudio parts)).1
      if liveTranscript.length > 0 then
        (saveLiveTranscript mark dir1
          (encodeTranscript
            { created := now, duration := duration, chunks := savedChunks liveTranscript,
              entities := detectedEntities })).1
      else dir1
  | _, _ => dir

/-- The audio that `loadAudio` of the session page (lines 189-205) asks for, through
`get-session-audio` (lines 346-375), for a transcript with the given `filename`: the
recording with the number in the name, or `audio.webm` without a number. -/
def loadAudio {α : Type} (dir : List (String × α)) (filename : Option String) : Option α :=
  match filename.bind (fun f => matchNumber "transcript-".data ".json".data f.data) with
  | some recordingNumber =>
      if recordingNumber ≠ .finite 0 then
        readFile dir (numberedName "recording-" recordingNumber ".webm")
      else readFile dir "audio.webm"
  | none => readFile dir "audio.webm"

/-- A profile as `get-profiles` returns it: the `id` and `name` of a `profile.json` and the
`path` of its directory. -/
structure ListedProfile where
  id : String
  name : String
  path : String
deriving DecidableEq, Repr

/-- The profiles directory of a campaign: the `.json` files at its top level (with the
ids used so far), and its subdirectories, each with the `id` and `name` of its
`profile.json` when it has one. -/
structure ProfilesDir where
  store : ProfileStore
  dirs : List (String × Option (String × String))

/-- The handler `get-profiles` (lines 381-407): the profiles of the subdirectories that
hold a `profile.json`; `sortByName` is the sort with `localeCompare`. -/
def getProfiles (sortByName : List ListedProfile → List ListedProfile) (profilesPath : String)
    (d : ProfilesDir) : List ListedProfile :=
  sortByName (d.dirs.filterMap fun entry =>
    entry.2.map fun pj => { id := pj.1, name := pj.2, path := profilesPath ++ "/" ++ entry.1 })

/-- The handler `create-profile` (lines 409-441): a directory named after a new id is made
and the profile is written to its `profile.json`. -/
def createProfile (genId : Nat → String) (d : ProfilesDir) (name : String) : ProfilesDir :=
  { store := { d.store with idsUsed := d.store.idsUsed + 1 }
    dirs := writeFile d.dirs (genId d.store.idsUsed) (some (genId d.store.idsUsed, name)) }

/-- The handler `process-entities` on the profiles directory: it reads and writes the
`.json` files at the top level only. -/
def processEntitiesDir (lower : String → String) (genId : Nat → String) (campaignId : String)
    (now : Nat) (d : ProfilesDir) (entities : List Entity) : ProfilesDir × ProcessResult :=
  ({ d with store := (processEntities lower genId campaignId now d.store entities).1 },
   (processEntities lower genId campaignId now d.store entities).2)

/-! ## Entity highlighting (`HighlightedText` of `SessionDetail.jsx`)

A text is a list of characters, each standing for a UTF-16 code unit of the JavaScript
string. -/

/-- An element of `parts`: its text and whether it is a match of the pattern. The `entity`
looked up for a match only styles the part and is left out. -/
structure TextPart where
  text : List Char
  isEntity : Bool
deriving DecidableEq, Repr

/-- The characters that the `replace` of line 25 puts a backslash in front of. -/
def isRegExpSpecial (c : Char) : Bool :=
  ".*+?^$\x7b\x7d()|[]".data.contains c || c = Char.ofNat 92

/-- The call `e.name.replace(/[.*+?^$\x7b\x7d()|[\]\\]/g, '\\$&')` of line 25. -/
def escapeRegExp (name : List Char) : List Char :=
  name.flatMap fun c => if isRegExpSpecial c then [Char.ofNat 92, c] else [c]

/-- The `pattern` of lines 24-26: the escaped names joined by `|`. -/
def patternOf (names : List (List Char)) : List Char :=
  List.intercalate ['|'] (names.map escapeRegExp)

/-- Whether `\w` matches a character. -/
def isWordChar (c : Char) : Bool := c.isAlphanum || c = '_'

/-- Whether the character at position `p` of the text is a word character; there is none
outside the text. -/
def isWordAt (text : List Char) (p : Nat) : Bool :=
  match text.get? p with
  | some c => isWordChar c
  | none => false

/-- Whether `\b` matches at position `p` of the text. -/
def wordBoundary (text : List Char) (p : Nat) : Bool :=
  (if p = 0 then false else isWordAt text (p - 1)) != isWordAt text p

/-- Whether the escaped `name` matches the text at position `p` under the flag `i`;
`canon` maps a character to its canonical form for the comparison. -/
def literalAt (canon : Char → Char) (text : List Char) (p : Nat) (name : List Char) : Bool :=
  ((text.drop p).take name.length).map canon == name.map canon

/-- A match of `\b(name1|name2|...)\b` at position `p`: the length of the first alternative,
in the order of the pattern, that matches there and ends at a word boundary. -/
def matchAt (canon : Char → Char) (names : List (List Char)) (text : List Char) (p : Nat) :
    Option Nat :=
  if wordBoundary text p then
    (names.find? fun name =>
      literalAt canon text p name && wordBoundary text (p + name.length)).map List.length
  else none

/-- The search of `regex.exec` over the next `count` positions from `p` on: the position
and length of the leftmost match. -/
def execFrom (canon : Char → Char) (names : List (List Char)) (text : List Char) :
    Nat → Nat → Option (Nat × Nat)
  | 0, _ => none
  | count + 1, p =>
      match matchAt canon names text p with
      | some len => some (p, len)
      | none => execFrom canon names text count (p + 1)

/-- The call `regex.exec(text)` with `regex.lastIndex = lastIndex`: `match.index` and the
length of `match[0]`, `none` when it returns `null`. -/
def regexExec (canon : Char → Char) (names : List (List Char)) (text : List Char)
    (lastIndex : Nat) : Option (Nat × Nat) :=
  if lastIndex > text.length then none
  else execFrom canon names text (text.length + 1 - lastIndex) lastIndex

/-- The call `text.slice(a, b)` for `a ≤ b`. -/
def jsSlice (text : List Char) (a b : Nat) : List Char :=
  (text.drop a).take (b - a)

/-- The `while` loop of lines 33-40 and the `if` after it, with at most `fuel` calls of
`regex.exec`: `none` when the loop has not ended by then. After a match the loop goes on
at `regex.lastIndex`, the end of the match. -/
def highlightLoop (canon : Char → Char) (names : List (List Char)) (text : List Char) :
    Nat → Nat → List TextPart → Option (List TextPart)
  | 0, _, _ => none
  | fuel + 1, lastIndex, parts =>
      match regexExec canon names text lastIndex with
      | none =>
          some (if lastIndex < text.length then
            parts ++ [{ text := text.drop lastIndex, isEntity := false }] else parts)
      | some (index, len) =>
          highlightLoop canon names text fuel (index + len)
            ((if index > lastIndex then
                parts ++ [{ text := jsSlice text lastIndex index, isEntity := false }]
              else parts) ++
              [{ text := jsSlice text index (index + len), isEntity := true }])

/-- The parts that `HighlightedText` renders (lines 14-40) for a text and the names of the
entities: the text as a single part without entities or with an empty pattern, the
result of the loop otherwise. -/
def highlightedParts (canon : Char → Char) (fuel : Nat) (text : String)
    (entityNames : List String) : Option (List TextPart) :=
  if entityNames.length = 0 then some [{ text := text.data, isEntity := false }]
  else if patternOf (entityNames.map String.data) = [] then
    some [{ text := text.data, isEntity := false }]
  else highlightLoop canon (entityNames.map String.data) text.data fuel 0 []

/-- The invariant of the loop of `HighlightedText`: the parts so far spell the text up to
`lastIndex`, and every part that is flagged as an entity is a non-empty match of a name. -/
def HighlightInv (canon : Char → Char) (names : List (List Char)) (text : List Char)
    (lastIndex : Nat) (parts : List TextPart) : Prop :=
  lastIndex ≤ text.length ∧
  parts.flatMap TextPart.text = text.take lastIndex ∧
  ∀ p ∈ parts, p.isEntity = true →
    p.text ≠ [] ∧ ∃ name ∈ names, p.text.map canon = name.map canon

/-! ## The recorder: lemmas -/

theorem received_append (a b : List RecEvent) : received (a ++ b) = received a ++ received b := by
  induction a with
  | nil => rfl
  | cons e es ih =>
      cases e <;> simp [received, ih]
      split <;> simp

theorem run_cons (r : Recorder) (e : RecEvent) (es : List RecEvent) :
    run r (e :: es) = ((run (step r e).1 es).1, (step r e).2.toList ++ (run (step r e).1 es).2) := rfl

theorem run_append (r : Recorder) (a b : List RecEvent) :
    run r (a ++ b) = ((run (run r a).1 b).1, (run r a).2 ++ (run (run r a).1 b).2) := by
  induction a generalizing r with
  | nil => simp [run]
  | cons e es ih => simp [run_cons, ih, List.append_assoc]

/-- The two ways an event can act on the hook: without emitting, the pending buffers grow by
what the event delivered and nothing else that the chunking reads is touched; or a segment
is emitted by `processChunk` from a non-empty `chunksRef`. -/
theorem step_cases (r : Recorder) (e : RecEvent) :
    ((step r e).2 = none ∧ (step r e).1.chunksRef = r.chunksRef ++ received [e] ∧
      (step r e).1.allChunksRef = r.allChunksRef ∧
      (step r e).1.headerChunkRef = r.headerChunkRef ∧
      (step r e).1.chunkCountRef = r.chunkCountRef ∧
      (step r e).1.chunkCount = r.chunkCount) ∨
    (r.chunksRef ≠ [] ∧ received [e] = [] ∧
      (step r e).2 = some
        { index := r.chunkCountRef
          blobParts :=
            if r.chunkCountRef = 0 then r.chunksRef
            else match r.headerChunkRef with
              | some h => h :: r.chunksRef
              | none => r.chunksRef } ∧
      (step r e).1.chunksRef = [] ∧
      (step r e).1.allChunksRef = r.allChunksRef ++ r.chunksRef ∧
      (step r e).1.headerChunkRef =
        (if r.chunkCountRef = 0 then r.chunksRef.head? else r.headerChunkRef) ∧
      (step r e).1.chunkCountRef = r.chunkCountRef + 1 ∧
      (step r e).1.chunkCount = r.chunkCountRef + 1) := by
  have hp : ∀ r : Recorder, r.chunksRef = [] → processChunk r = (r, none) := by
    intro r h; simp [processChunk, h]
  have hq : ∀ r : Recorder, r.chunksRef ≠ [] →
      processChunk r =
        ({ r with
            chunkCountRef := r.chunkCountRef + 1
            headerChunkRef := if r.chunkCountRef = 0 then r.chunksRef.head? else r.headerChunkRef
            allChunksRef := r.allChunksRef ++ r.chunksRef
            chunksRef := []
            chunkCount := r.chunkCountRef + 1 },
         some { index := r.chunkCountRef
                blobParts :=
                  if r.chunkCountRef = 0 then r.chunksRef
                  else match r.headerChunkRef with
                    | some h => h :: r.chunksRef
                    | none => r.chunksRef }) := by
    intro r h
    have hl : r.chunksRef.length ≠ 0 := by
      intro h0; exact h (List.length_eq_zero.mp h0)
    have hpos : 0 < r.chunksRef.length := Nat.pos_of_ne_zero hl
    by_cases hc : r.chunkCountRef = 0
    · simp [processChunk, hl, hc, hpos]
    · simp [processChunk, hl, hc]
  cases e with
  | data b =>
      left
      by_cases hb : b.size > 0
      · simp [step, onDataAvailable, received, hb]
      · simp [step, onDataAvailable, received, hb]
  | tick =>
      by_cases ht : r.chunkTimer = true
      · by_cases hc : r.chunksRef = []
        · left; simp [step, chunkTimerTick, ht, hp r hc, received]
        · right; simp [step, chunkTimerTick, ht, hq r hc, received, hc]
      · left; simp [step, chunkTimerTick, ht, received]
  | flush =>
      by_cases hc : r.chunksRef = []
      · left; simp [step, flushChunk, hp r hc, received]
      · right; simp [step, flushChunk, hq r hc, received, hc]
  | pause =>
      left
      simp only [step, pauseRecording, received]
      split <;> simp
  | resume =>
      left
      simp only [step, resumeRecording, received]
      split <;> simp

/-- The indices handed out during a run continue the counter of the starting state. -/
theorem run_indices (r : Recorder) (es : List RecEvent) :
    (run r es).1.chunkCountRef = r.chunkCountRef + (run r es).2.length ∧
    (run r es).2.map Segment.index = List.range' r.chunkCountRef (run r es).2.length ∧
    (r.chunkCount = r.chunkCountRef → (run r es).1.chunkCount = (run r es).1.chunkCountRef) := by
  induction es generalizing r with
  | nil => simp [run]
  | cons e es ih =>
      obtain ⟨h1, h2, h3⟩ := ih (step r e).1
      rw [run_cons]
      rcases step_cases r e with ⟨ho, _, _, _, hc, hcc⟩ | ⟨_, _, ho, _, _, _, hc, hcc⟩
      · simp only [ho, Option.toList, List.nil_append]
        rw [hc] at h1 h2
        rw [hc, hcc] at h3
        exact ⟨h1, h2, h3⟩
      · simp only [ho, Option.toList, List.singleton_append, List.length_cons, List.map_cons]
        rw [hc] at h1 h2
        refine ⟨by omega, ?_, fun _ => h3 (by rw [hc, hcc])⟩
        rw [h2, List.range'_succ]

theorem headerInv_start (r0 : Recorder) (liveMode : Bool) :
    HeaderInv (startRecording r0 liveMode) := by
  simp [HeaderInv, startRecording]

theorem headerInv_step (r : Recorder) (e : RecEvent) (h : HeaderInv r) :
    HeaderInv (step r e).1 := by
  obtain ⟨h0, h1⟩ := h
  rcases step_cases r e with ⟨_, _, ha, hh, hc, _⟩ | ⟨hne, _, _, _, ha, hh, hc, _⟩
  · unfold HeaderInv
    rw [ha, hh, hc]
    exact ⟨h0, h1⟩
  · unfold HeaderInv
    rw [ha, hh, hc]
    refine ⟨fun hz => by omega, fun _ => ⟨by simp [hne], ?_⟩⟩
    by_cases hz : r.chunkCountRef = 0
    · simp [hz, h0 hz]
    · obtain ⟨hne2, hhd⟩ := h1 hz
      simp [hz, hhd, List.head?_append_of_ne_nil _ hne2]

theorem headerInv_run (r : Recorder) (es : List RecEvent) (h : HeaderInv r) :
    HeaderInv (run r es).1 := by
  induction es generalizing r with
  | nil => simpa [run] using h
  | cons e es ih =>
      rw [run_cons]
      exact ih _ (headerInv_step r e h)

/-- Under the header invariant an emitted segment carries exactly the pending buffers as
its payload. -/
theorem step_payload (r : Recorder) (e : RecEvent) (h : HeaderInv r) :
    (step r e).2.toList.flatMap Segment.payload =
      if (step r e).2.isSome then r.chunksRef else [] := by
  rcases step_cases r e with ⟨ho, _⟩ | ⟨_, _, ho, _⟩
  · simp [ho]
  · simp only [ho, Option.toList, Option.isSome_some, if_true, List.flatMap_cons,
      List.flatMap_nil, List.append_nil, Segment.payload]
    by_cases hz : r.chunkCountRef = 0
    · simp [hz]
    · obtain ⟨_, hhd⟩ := h.2 hz
      cases hh : r.headerChunkRef with
      | none =>
          rw [hh] at hhd
          have := h.2 hz
          cases ha : r.allChunksRef with
          | nil => exact absurd ha this.1
          | cons a as => rw [ha] at hhd; simp at hhd
      | some b => simp [hz]

/-- Nothing is lost or duplicated: what was moved to `allChunksRef` followed by what is
pending is what it was at the start followed by the buffers received since. -/
theorem run_all (r : Recorder) (es : List RecEvent) :
    (run r es).1.allChunksRef ++ (run r es).1.chunksRef =
      r.allChunksRef ++ r.chunksRef ++ received es := by
  induction es generalizing r with
  | nil => simp [run, received]
  | cons e es ih =>
      rw [run_cons]
      simp only
      rw [ih, show e :: es = [e] ++ es from rfl, received_append]
      rcases step_cases r e with ⟨_, hc, ha, _⟩ | ⟨_, hr, _, hc, ha, _⟩
      · rw [hc, ha]; simp [List.append_assoc]
      · rw [hc, ha, hr]; simp

/-- The payloads emitted during a run are the buffers moved to `allChunksRef`. -/
theorem run_payload_all (r : Recorder) (es : List RecEvent) (h : HeaderInv r) :
    (run r es).1.allChunksRef = r.allChunksRef ++ (run r es).2.flatMap Segment.payload := by
  induction es generalizing r with
  | nil => simp [run]
  | cons e es ih =>
      rw [run_cons]
      simp only
      rw [ih _ (headerInv_step r e h), List.flatMap_append, step_payload r e h]
      rcases step_cases r e with ⟨ho, _, ha, _⟩ | ⟨_, _, ho, _, ha, _⟩
      · simp [ho, ha]
      · simp [ho, ha]

theorem upToLastEmission_cons_nil (r : Recorder) (e : RecEvent) (es : List RecEvent)
    (h : upToLastEmission (step r e).1 es = []) :
    upToLastEmission r (e :: es) = if (step r e).2.isSome then [e] else [] := by
  rw [upToLastEmission, h]

theorem upToLastEmission_cons_cons (r : Recorder) (e x : RecEvent) (es xs : List RecEvent)
    (h : upToLastEmission (step r e).1 es = x :: xs) :
    upToLastEmission r (e :: es) = e :: x :: xs := by
  rw [upToLastEmission, h]

/-- The payloads emitted during a run are the pending buffers of the starting state
followed by the buffers received up to the last emission. -/
theorem run_payload (r : Recorder) (es : List RecEvent) (h : HeaderInv r) :
    (run r es).2.flatMap Segment.payload =
      if upToLastEmission r es = [] then []
      else r.chunksRef ++ received (upToLastEmission r es) := by
  induction es generalizing r with
  | nil => simp [run, upToLastEmission]
  | cons e es ih =>
      rw [run_cons]
      simp only
      rw [List.flatMap_append, step_payload r e h, ih _ (headerInv_step r e h)]
      cases hl : upToLastEmission (step r e).1 es with
      | nil =>
          rw [upToLastEmission_cons_nil r e es hl]
          rcases step_cases r e with ⟨ho, hc, _⟩ | ⟨_, hr, ho, hc, _⟩
          · simp [ho]
          · simp [ho, hr]
      | cons x xs =>
          rw [upToLastEmission_cons_cons r e x es xs hl,
            show e :: x :: xs = [e] ++ (x :: xs) from rfl, received_append]
          rcases step_cases r e with ⟨ho, hc, _⟩ | ⟨_, hr, ho, hc, _⟩
          · simp [ho, hc, List.append_assoc]
          · simp [ho, hc, hr]

/-- The pending buffers after a run are the buffers received since the last emission (on
top of those pending at the start when nothing was emitted). -/
theorem run_pending (r : Recorder) (es : List RecEvent) :
    (run r es).1.chunksRef =
      if upToLastEmission r es = [] then r.chunksRef ++ received es
      else received (sinceLastEmission r es) := by
  induction es generalizing r with
  | nil => simp [run, upToLastEmission, received]
  | cons e es ih =>
      rw [run_cons]
      simp only
      rw [ih]
      unfold sinceLastEmission
      cases hl : upToLastEmission (step r e).1 es with
      | nil =>
          rw [upToLastEmission_cons_nil r e es hl,
            show received (e :: es) = received [e] ++ received es from
              received_append [e] es]
          rcases step_cases r e with ⟨ho, hc, _⟩ | ⟨_, hr, ho, hc, _⟩
          · simp [ho, hc, List.append_assoc]
          · simp [ho, hc]
      | cons x xs =>
          rw [upToLastEmission_cons_cons r e x es xs hl]
          simp

theorem step_mediaRecorder (r : Recorder) (e : RecEvent) (h : r.mediaRecorder.isSome) :
    (step r e).1.mediaRecorder.isSome := by
  have hp : (processChunk r).1.mediaRecorder = r.mediaRecorder := by
    unfold processChunk; split <;> rfl
  cases e with
  | data b => simp only [step, onDataAvailable]; split <;> simpa using h
  | tick => simp only [step, chunkTimerTick]; split <;> simp [hp, h]
  | flush => simp [step, flushChunk, hp, h]
  | pause => simp only [step, pauseRecording]; split <;> simp [h]
  | resume => simp only [step, resumeRecording]; split <;> simp [h]

theorem run_mediaRecorder (r : Recorder) (es : List RecEvent) (h : r.mediaRecorder.isSome) :
    (run r es).1.mediaRecorder.isSome := by
  induction es generalizing r with
  | nil => simpa [run] using h
  | cons e es ih => rw [run_cons]; exact ih _ (step_mediaRecorder r e h)

/-- After `startRecording` the pending buffers are the buffers received since the last
emission, or since the start when nothing was emitted yet. -/
theorem run_pending_start (r0 : Recorder) (liveMode : Bool) (evs : List RecEvent) :
    (run (startRecording r0 liveMode) evs).1.chunksRef =
      received (sinceLastEmission (startRecording r0 liveMode) evs) := by
  rw [run_pending]
  split
  · next h =>
      have hz : (startRecording r0 liveMode).chunksRef = [] := rfl
      simp [sinceLastEmission, h, hz]
  · rfl

/-- The events up to the last emission are an initial part of the sequence; the events
since the last emission are the rest. -/
theorem upTo_append_since (r : Recorder) (evs : List RecEvent) :
    upToLastEmission r evs ++ sinceLastEmission r evs = evs := by
  have hp : ∀ (es : List RecEvent) (r : Recorder), upToLastEmission r es <+: es := by
    intro es
    induction es with
    | nil => intro r; simp [upToLastEmission]
    | cons e es ih =>
        intro r
        cases hl : upToLastEmission (step r e).1 es with
        | nil =>
            rw [upToLastEmission_cons_nil r e es hl]
            split
            · exact ⟨es, rfl⟩
            · exact List.nil_prefix
        | cons x xs =>
            rw [upToLastEmission_cons_cons r e x es xs hl, ← hl]
            obtain ⟨t, ht⟩ := ih (step r e).1
            exact ⟨t, by rw [List.cons_append, ht]⟩
  obtain ⟨t, ht⟩ := hp evs r
  have hd := congrArg (List.drop (upToLastEmission r evs).length) ht
  rw [List.drop_left] at hd
  unfold sinceLastEmission
  rw [← hd]
  exact ht

/-- The indices of the segments of a recording are `0, 1, ..., n-1` in this order. -/
theorem recording_indices (r0 : Recorder) (liveMode : Bool) (evs : List RecEvent) :
    (run (startRecording r0 liveMode) evs).2.map Segment.index =
      List.range (run (startRecording r0 liveMode) evs).2.length := by
  obtain ⟨_, h2, _⟩ := run_indices (startRecording r0 liveMode) evs
  have hs : (startRecording r0 liveMode).chunkCountRef = 0 := rfl
  rw [hs] at h2
  rw [h2, List.range_eq_range']

/-- No segment is emitted after the events up to the last emission. -/
theorem run_upTo (r : Recorder) (evs : List RecEvent) :
    (run r (upToLastEmission r evs)).2 = (run r evs).2 := by
  induction evs generalizing r with
  | nil => simp [upToLastEmission]
  | cons e es ih =>
      have h := ih (step r e).1
      cases hl : upToLastEmission (step r e).1 es with
      | nil =>
          rw [hl] at h
          rw [upToLastEmission_cons_nil r e es hl, run_cons, ← h]
          cases ho : (step r e).2 with
          | none => simp [run]
          | some seg => simp [run, ho]
      | cons x xs =>
          rw [upToLastEmission_cons_cons r e x es xs hl, ← hl, run_cons r e es,
            run_cons r e (upToLastEmission (step r e).1 es), h]

/-! ## The recorder: claims -/

/-- C1: within one recording, whatever the interleaving of buffer arrivals, timer ticks,
`flushChunk`, `pauseRecording` and `resumeRecording`, the indices of the emitted segments
are `0, 1, ..., N-1` in this order (the k-th segment has index k) and `chunkCount` is the
number `N` of emitted segments. -/
theorem C1_indices_count_up (r0 : Recorder) (liveMode : Bool) (evs : List RecEvent) :
    (run (startRecording r0 liveMode) evs).2.map Segment.index =
      List.range (run (startRecording r0 liveMode) evs).2.length ∧
    (run (startRecording r0 liveMode) evs).1.chunkCount =
      (run (startRecording r0 liveMode) evs).2.length := by
  obtain ⟨h1, h2, h3⟩ := run_indices (startRecording r0 liveMode) evs
  have hs : (startRecording r0 liveMode).chunkCountRef = 0 := rfl
  have hs2 : (startRecording r0 liveMode).chunkCount = 0 := rfl
  rw [hs] at h1 h2
  refine ⟨by rw [h2, List.range_eq_range'], ?_⟩
  rw [h3 (by rw [hs, hs2]), h1]
  omega

/-- C4: whatever happened since `startRecording`, the parts of the blob resolved by
`stopRecording` are all the non-empty buffers received since the start, in arrival order,
and they are the payloads of the emitted segments followed by the pending buffers. -/
theorem C4_stop_returns_entire_capture (r0 : Recorder) (liveMode : Bool)
    (evs : List RecEvent) :
    (stopRecording (run (startRecording r0 liveMode) evs).1).2 = some (received evs) ∧
    received evs =
      (run (startRecording r0 liveMode) evs).2.flatMap Segment.payload ++
        (run (startRecording r0 liveMode) evs).1.chunksRef := by
  have hall := run_all (startRecording r0 liveMode) evs
  have hpay := run_payload_all (startRecording r0 liveMode) evs (headerInv_start r0 liveMode)
  have hm := run_mediaRecorder (startRecording r0 liveMode) evs rfl
  have hs : (startRecording r0 liveMode).allChunksRef = [] := rfl
  have hs2 : (startRecording r0 liveMode).chunksRef = [] := rfl
  rw [hs, hs2] at hall
  rw [hs] at hpay
  simp only [List.nil_append] at hall hpay
  constructor
  · unfold stopRecording
    cases hmr : (run (startRecording r0 liveMode) evs).1.mediaRecorder with
    | none => rw [hmr] at hm; simp at hm
    | some st => simp [hall]
  · rw [← hpay, hall]

/-- C5: when an event makes the hook emit a segment after the events `evs` of a recording,
the header the hook then remembers is the first non-empty buffer received since
`startRecording`; a segment with index 0 consists of exactly the buffers received so far;
a segment with a higher index finds a header in `headerChunkRef` (the branch without a
header is not taken) and consists of that header, which is the first buffer received,
followed by the buffers received since the previous emission. -/
theorem C5_header_prefixing (r0 : Recorder) (liveMode : Bool) (evs : List RecEvent)
    (e : RecEvent) (seg : Segment)
    (h : (step (run (startRecording r0 liveMode) evs).1 e).2 = some seg) :
    (step (run (startRecording r0 liveMode) evs).1 e).1.headerChunkRef = (received evs).head? ∧
    (received evs).head? ≠ none ∧
    (seg.index = 0 → seg.blobParts = received evs) ∧
    (seg.index ≠ 0 → ∃ hd,
      (run (startRecording r0 liveMode) evs).1.headerChunkRef = some hd ∧
      (received evs).head? = some hd ∧
      seg.blobParts = hd :: received (sinceLastEmission (startRecording r0 liveMode) evs)) := by
  have hinv := headerInv_run (startRecording r0 liveMode) evs (headerInv_start r0 liveMode)
  have hall := run_all (startRecording r0 liveMode) evs
  have hpend := run_pending_start r0 liveMode evs
  have hs : (startRecording r0 liveMode).allChunksRef = [] := rfl
  have hs2 : (startRecording r0 liveMode).chunksRef = [] := rfl
  rw [hs, hs2] at hall
  simp only [List.nil_append] at hall
  generalize run (startRecording r0 liveMode) evs = out at *
  rcases step_cases out.1 e with ⟨ho, _⟩ | ⟨hne, _, ho, _, _, hh, _, _⟩
  · rw [ho] at h; cases h
  · rw [ho] at h
    injection h with h
    subst h
    obtain ⟨h0, h1⟩ := hinv
    have hrecv : received evs ≠ [] := by
      rw [← hall]; simp [hne]
    refine ⟨?_, ?_, ?_, ?_⟩
    · rw [hh, ← hall]
      by_cases hz : out.1.chunkCountRef = 0
      · simp [hz, h0 hz]
      · obtain ⟨hne2, hhd⟩ := h1 hz
        simp [hz, hhd, List.head?_append_of_ne_nil _ hne2]
    · cases hr : received evs with
      | nil => exact absurd hr hrecv
      | cons a as => simp
    · intro hz
      simp only at hz
      simp only [hz, if_true]
      rw [← hall, h0 hz, List.nil_append]
    · intro hz
      simp only at hz
      obtain ⟨hne2, hhd⟩ := h1 hz
      cases ha : out.1.allChunksRef with
      | nil => exact absurd ha hne2
      | cons a as =>
          rw [ha] at hhd
          simp only [List.head?_cons] at hhd
          refine ⟨a, hhd, ?_, ?_⟩
          · rw [← hall, ha]; rfl
          · simp only [hz, if_false, hhd, hpend]

/-- C5 at a recording of three buffers: after a buffer and a tick (segment 0), a flush after
two more buffers emits segment 1 made of the first buffer and the two new ones. -/
theorem C5_header_prefixing_witness :
    (step (run (startRecording (Recorder.init true) true)
        [.data ⟨[1]⟩, .tick, .data ⟨[2]⟩, .data ⟨[3]⟩]).1 .flush).2 =
      some ⟨1, [⟨[1]⟩, ⟨[2]⟩, ⟨[3]⟩]⟩ ∧
    (received [.data ⟨[1]⟩, .tick, .data ⟨[2]⟩, .data ⟨[3]⟩]).head? ≠ none :=
  ⟨by decide,
   (C5_header_prefixing (Recorder.init true) true
      [.data ⟨[1]⟩, .tick, .data ⟨[2]⟩, .data ⟨[3]⟩] .flush ⟨1, [⟨[1]⟩, ⟨[2]⟩, ⟨[3]⟩]⟩
      (by decide)).2.1⟩

/-- C6: at every point of a recording, the payloads of the emitted segments (their parts
without the header put in front of the segments with an index above 0), concatenated in
index order, are exactly the non-empty buffers received from the start up to the last
emission; here the events up to the last emission are an initial part of the events so
far, and they emit the same segments as all the events so far. -/
theorem C6_segments_contiguous (r0 : Recorder) (liveMode : Bool) (evs : List RecEvent) :
    (run (startRecording r0 liveMode) evs).2.flatMap Segment.payload =
      received (upToLastEmission (startRecording r0 liveMode) evs) ∧
    upToLastEmission (startRecording r0 liveMode) evs ++
      sinceLastEmission (startRecording r0 liveMode) evs = evs ∧
    (run (startRecording r0 liveMode) (upToLastEmission (startRecording r0 liveMode) evs)).2 =
      (run (startRecording r0 liveMode) evs).2 := by
  refine ⟨?_, upTo_append_since _ _, run_upTo _ _⟩
  rw [run_payload _ _ (headerInv_start r0 liveMode)]
  have hs2 : (startRecording r0 liveMode).chunksRef = [] := rfl
  split
  · next h => rw [h]; rfl
  · rw [hs2, List.nil_append]

/-- C7, as stated, fails: two recordings into the same session, each emitting one segment,
give two segments with index 0. -/
theorem C7_index_repeats_across_recordings :
    ¬ ((sessionSegments (Recorder.init true)
        [(true, [.data ⟨[1]⟩, .tick]), (true, [.data ⟨[2]⟩, .tick])]).map
          Segment.index).Nodup := by
  decide

/-- C7, amended: in every sequence of recordings made with the same hook, the segments of
each single recording carry the indices `0, 1, ..., n-1` in this order, so an index is
unique within a recording and every recording starts again at index 0. -/
theorem C7_index_unique_within_recording (r : Recorder)
    (recordings : List (Bool × List RecEvent)) :
    (sessionRecordings r recordings).map (fun segs => segs.map Segment.index) =
      (sessionRecordings r recordings).map (fun segs => List.range segs.length) := by
  induction recordings generalizing r with
  | nil => rfl
  | cons rec rest ih =>
      obtain ⟨liveMode, evs⟩ := rec
      simp only [sessionRecordings, List.map_cons]
      rw [ih, (recording_indices r liveMode evs)]

/-! ## The live transcript: claims -/

/-- C2, as stated, fails: merging the same successful result for index 0 twice into the
empty transcript gives two entries, merging it once gives one. -/
theorem C2_merge_twice_differs :
    mergeTranscript (mergeTranscript [] 0 ⟨true, some "hello"⟩ 7) 0 ⟨true, some "hello"⟩ 7 ≠
      mergeTranscript [] 0 ⟨true, some "hello"⟩ 7 := by
  decide

/-- C2, amended: the transcript merge of `handleChunk` appends. For every transcript and
every result that passes the test of line 107 with trimmed text `t`, merging it a second
time for the same index gives the once-merged transcript followed by one more entry with
this index and text, so the transcript grows by one entry with every application. -/
theorem C2_merge_appends (prev : List TranscriptItem) (i : Nat) (result : TranscribeResult)
    (t : String) (now1 now2 : Nat) (h : acceptedText result = some t) :
    mergeTranscript (mergeTranscript prev i result now1) i result now2 =
      mergeTranscript prev i result now1 ++ [{ index := i, text := t, time := now2 }] ∧
    mergeTranscript prev i result now1 = prev ++ [{ index := i, text := t, time := now1 }] ∧
    (mergeTranscript (mergeTranscript prev i result now1) i result now2).length =
      prev.length + 2 := by
  simp [mergeTranscript, h, appendTranscript]

/-- C2, amended, at the result `" hello "` for index 3 merged twice into the empty
transcript. -/
theorem C2_merge_appends_witness :
    acceptedText ⟨true, some " hello "⟩ = some "hello" ∧
    mergeTranscript (mergeTranscript [] 3 ⟨true, some " hello "⟩ 1) 3 ⟨true, some " hello "⟩ 2 =
      mergeTranscript [] 3 ⟨true, some " hello "⟩ 1 ++ [{ index := 3, text := "hello", time := 2 }] :=
  ⟨by decide,
   (C2_merge_appends [] 3 ⟨true, some " hello "⟩ "hello" 1 2 (by decide)).1⟩

/-- C3, as stated, fails: when the transcription of segment 1 completes before the one of
segment 0, the live transcript and the `chunks` written by `stopRecording` list entry 1
before entry 0. -/
theorem C3_completion_order_kept :
    (liveTranscriptAfter [⟨1, ⟨true, some "one"⟩, 10⟩, ⟨0, ⟨true, some "zero"⟩, 11⟩]).map
        TranscriptItem.index = [1, 0] ∧
    (savedChunks
        (liveTranscriptAfter [⟨1, ⟨true, some "one"⟩, 10⟩, ⟨0, ⟨true, some "zero"⟩, 11⟩])).map
        SavedChunk.index = [1, 0] ∧
    ¬ List.Pairwise (fun a b => a < b)
      ((liveTranscriptAfter [⟨1, ⟨true, some "one"⟩, 10⟩, ⟨0, ⟨true, some "zero"⟩, 11⟩]).map
        TranscriptItem.index) := by
  decide

/-- The indices of the live transcript are those of the accepted completions, in the order
of completion, after any transcript to start from. -/
theorem foldl_merge_indices (cs : List Completion) (acc : List TranscriptItem) :
    (cs.foldl (fun prev c => mergeTranscript prev c.chunkIndex c.result c.now) acc).map
        TranscriptItem.index =
      acc.map TranscriptItem.index ++
        (cs.filter (fun c => (acceptedText c.result).isSome)).map Completion.chunkIndex := by
  induction cs generalizing acc with
  | nil => simp
  | cons c cs ih =>
      rw [List.foldl_cons, ih]
      cases h : acceptedText c.result with
      | none => simp [mergeTranscript, h]
      | some t => simp [mergeTranscript, h, appendTranscript]

/-- C3, amended: the timeline is in completion order. For every order in which the
transcriptions complete, the live transcript, and the `chunks` that `stopRecording` writes
from it, list the entries of the completions that passed the test of line 107 in the order
in which they completed (so they are in increasing index order when the transcriptions
complete in increasing index order). -/
theorem C3_timeline_in_completion_order (cs : List Completion) :
    (liveTranscriptAfter cs).map TranscriptItem.index =
      (cs.filter (fun c => (acceptedText c.result).isSome)).map Completion.chunkIndex ∧
    (savedChunks (liveTranscriptAfter cs)).map SavedChunk.index =
      (cs.filter (fun c => (acceptedText c.result).isSome)).map Completion.chunkIndex := by
  have h := foldl_merge_indices cs []
  simp only [List.map_nil, List.nil_append] at h
  refine ⟨h, ?_⟩
  rw [← h]
  simp [savedChunks, liveTranscriptAfter, Function.comp_def]

/-! ## Entity extraction: lemmas -/

theorem jsFilter_all_true {α : Type} (p : α → Option Bool) (xs : List α)
    (h : ∀ x ∈ xs, p x = some true) : jsFilter p xs = some xs := by
  induction xs with
  | nil => rfl
  | cons x xs ih =>
      have hx := h x (List.mem_cons_self x xs)
      have hxs := ih (fun y hy => h y (List.mem_cons_of_mem x hy))
      simp [jsFilter, hx, hxs]

theorem jsMap_all_some {α β : Type} (f : α → Option β) (g : α → β) (xs : List α)
    (h : ∀ x ∈ xs, f x = some (g x)) : jsMap f xs = some (xs.map g) := by
  induction xs with
  | nil => rfl
  | cons x xs ih =>
      have hx := h x (List.mem_cons_self x xs)
      have hxs := ih (fun y hy => h y (List.mem_cons_of_mem x hy))
      simp [jsMap, hx, hxs]

theorem jsTrim_empty : jsTrim "" = "" := by decide

theorem wellFormed_filter (e : JsValue) (x : String × String × String)
    (h : WellFormedEntity e x) : entityFilter e = some true := by
  obtain ⟨⟨props, he, hn, ht, _⟩, hne, hty⟩ := h
  have hx : x.1 ≠ "" := by
    intro h0; rw [h0] at hne; exact hne jsTrim_empty
  subst he
  simp only [entityFilter, getProp, hn, ht, truthy, isString, isEntityType]
  simp only [List.mem_cons, List.mem_singleton, List.not_mem_nil, or_false] at hty
  have hty2 : ((x.2.1 = "character" ∨ x.2.1 = "monster") ∨ x.2.1 = "place") ∨ x.2.1 = "item" := by
    tauto
  simp [hx, hty2]

theorem wellFormed_map (e : JsValue) (x : String × String × String)
    (h : WellFormedEntity e x) :
    entityMap e = some { name := jsTrim x.1, type := .str x.2.1, description := .str x.2.2 } := by
  obtain ⟨⟨props, he, hn, ht, hd⟩, _, _⟩ := h
  subst he
  simp only [entityMap, getProp, hn, ht, hd, truthy]
  by_cases hz : x.2.2 = ""
  · simp [hz]
  · simp [hz]

theorem wellFormed_all_filter (es : List JsValue) (xs : List (String × String × String))
    (hwf : List.Forall₂ WellFormedEntity es xs) : jsFilter entityFilter es = some es := by
  induction hwf with
  | nil => rfl
  | cons hx _ ih => simp [jsFilter, wellFormed_filter _ _ hx, ih]

theorem wellFormed_all_map (es : List JsValue) (xs : List (String × String × String))
    (hwf : List.Forall₂ WellFormedEntity es xs) :
    jsMap entityMap es =
      some (xs.map (fun x =>
        { name := jsTrim x.1, type := .str x.2.1, description := .str x.2.2 })) := by
  induction hwf with
  | nil => rfl
  | cons hx _ ih => simp [jsMap, wellFormed_map _ _ hx, ih]

/-! ## Entity extraction: claims -/

/-- C8 fails on the code: a model response whose entity has the name of two spaces passes
the filter (`e.name` is a non-empty string) and is returned with the trimmed name `""`. -/
theorem C8_blank_name_gives_empty_name :
    extractEntities
        (parseOnly "[\x7b\"name\":\"  \",\"type\":\"monster\"\x7d]"
          (.arr [.obj [("name", .str "  "), ("type", .str "monster")]]))
        (some "[\x7b\"name\":\"  \",\"type\":\"monster\"\x7d]") =
      [{ name := "", type := .str "monster", description := .str "" }] := by
  rfl

/-- C9 fails on the code: a `null` element makes the filter predicate throw on `e.name`, the
`catch` returns `[]`, and the valid entity that follows it is lost; the same response
without the `null` returns that entity. -/
theorem C9_null_element_loses_valid_entity :
    extractEntities
        (parseOnly "[null,\x7b\"name\":\"Grak\",\"type\":\"monster\"\x7d]"
          (.arr [.null, .obj [("name", .str "Grak"), ("type", .str "monster")]]))
        (some "[null,\x7b\"name\":\"Grak\",\"type\":\"monster\"\x7d]") = [] ∧
    extractEntities
        (parseOnly "[\x7b\"name\":\"Grak\",\"type\":\"monster\"\x7d]"
          (.arr [.obj [("name", .str "Grak"), ("type", .str "monster")]]))
        (some "[\x7b\"name\":\"Grak\",\"type\":\"monster\"\x7d]") =
      [{ name := "Grak", type := .str "monster", description := .str "" }] := by
  exact ⟨rfl, rfl⟩

/-- C10: when the cleaned model response parses to an array whose elements are all objects
with a string name that is not blank, a type from the enum and a string description,
`extractEntities` returns one entity per element, in the same order, with the name
trimmed and the type and description unchanged. -/
theorem C10_well_formed_pass_through (parse : String → Option JsValue) (response : String)
    (es : List JsValue) (xs : List (String × String × String))
    (hparse : parse (cleanResponse response) = some (.arr es))
    (hwf : List.Forall₂ WellFormedEntity es xs) :
    extractEntities parse (some response) =
      xs.map (fun x => { name := jsTrim x.1, type := .str x.2.1, description := .str x.2.2 }) := by
  simp [extractEntities, hparse, wellFormed_all_filter es xs hwf, wellFormed_all_map es xs hwf]

/-- C10 at Scenario A: the mocked response with Grak and the Sunken Tower is returned as
exactly these two entities. -/
theorem C10_scenario_A :
    extractEntities
        (parseOnly
          ("[\x7b\"name\":\"Grak\",\"type\":\"monster\",\"description\":\"an orc\"\x7d," ++
            "\x7b\"name\":\"Sunken Tower\",\"type\":\"place\",\"description\":\"a ruin\"\x7d]")
          (.arr
            [.obj [("name", .str "Grak"), ("type", .str "monster"), ("description", .str "an orc")],
             .obj [("name", .str "Sunken Tower"), ("type", .str "place"),
               ("description", .str "a ruin")]]))
        (some
          ("[\x7b\"name\":\"Grak\",\"type\":\"monster\",\"description\":\"an orc\"\x7d," ++
            "\x7b\"name\":\"Sunken Tower\",\"type\":\"place\",\"description\":\"a ruin\"\x7d]")) =
      [{ name := "Grak", type := .str "monster", description := .str "an orc" },
       { name := "Sunken Tower", type := .str "place", description := .str "a ruin" }] :=
  C10_well_formed_pass_through _ _
    [.obj [("name", .str "Grak"), ("type", .str "monster"), ("description", .str "an orc")],
     .obj [("name", .str "Sunken Tower"), ("type", .str "place"), ("description", .str "a ruin")]]
    [("Grak", "monster", "an orc"), ("Sunken Tower", "place", "a ruin")]
    rfl
    (List.Forall₂.cons ⟨⟨_, rfl, rfl, rfl, rfl⟩, by decide, by decide⟩
      (List.Forall₂.cons ⟨⟨_, rfl, rfl, rfl, rfl⟩, by decide, by decide⟩ List.Forall₂.nil))

/-! ## Session entities: claims -/

/-- C11: for every list of detected entities and every batch in which each name equals,
after `toLowerCase`, the name of an entity already detected, the entity merge of
`handleChunk` returns the list unchanged. -/
theorem C11_known_names_add_nothing (lower : String → String) (prev batch : List Entity)
    (h : ∀ e ∈ batch, ∃ p ∈ prev, lower p.name = lower e.name) :
    mergeEntities lower prev batch = prev := by
  unfold mergeEntities
  have hf : batch.filter
      (fun e => !((prev.map fun e => lower e.name).contains (lower e.name))) = [] := by
    rw [List.filter_eq_nil_iff]
    intro e he
    obtain ⟨p, hp, hpe⟩ := h e he
    have : lower e.name ∈ prev.map (fun e => lower e.name) :=
      List.mem_map.mpr ⟨p, hp, hpe⟩
    simpa using List.mem_map.mp this
  simp only [hf, List.append_nil]

/-- C11 at the batches `Grak`, then `grak`: the second batch adds nothing. -/
theorem C11_grak_witness :
    mergeEntities asciiLower
        (mergeEntities asciiLower [] [{ name := "Grak", type := .str "monster", description := .str "" }])
        [{ name := "grak", type := .str "monster", description := .str "" }] =
      mergeEntities asciiLower [] [{ name := "Grak", type := .str "monster", description := .str "" }] :=
  C11_known_names_add_nothing asciiLower _ _ (by
    intro e he
    refine ⟨{ name := "Grak", type := .str "monster", description := .str "" }, ?_, ?_⟩
    · simp [mergeEntities]
    · rw [List.mem_singleton.mp he]
      decide)

/-- C12 fails on the code: a batch that contains `Grak` and `grak` is merged into the empty
list as a whole, because the names are only compared with those already detected; the
case-folded names of the result are not pairwise distinct. -/
theorem C12_batch_with_repeated_name :
    (detectedAfter asciiLower
        [[{ name := "Grak", type := .str "monster", description := .str "" },
          { name := "grak", type := .str "monster", description := .str "" }]]).map
        (fun e => asciiLower e.name) = ["grak", "grak"] ∧
    ¬ ((detectedAfter asciiLower
        [[{ name := "Grak", type := .str "monster", description := .str "" },
          { name := "grak", type := .str "monster", description := .str "" }]]).map
        (fun e => asciiLower e.name)).Nodup := by
  decide

/-! ## Auto-created profiles: lemmas -/

theorem writeProfile_fresh (files : List Profile) (p : Profile)
    (h : ∀ q ∈ files, q.id ≠ p.id) : writeProfile files p = files ++ [p] := by
  unfold writeProfile
  have : files.any (fun q => q.id == p.id) = false := by
    rw [List.any_eq_false]
    intro q hq
    simpa using h q hq
  simp [this]

/-- One iteration keeps the loop invariant and creates a profile exactly for an entity whose
case-folded name is neither stored nor the name of an earlier entity. -/
theorem processEntity_inv (lower : String → String) (genId : Nat → String)
    (campaignId : String) (now : Nat) (files0 : List Profile) (storedNames : List String)
    (ids0 : Nat) (earlier : List Entity) (st : ProcessLoop) (e : Entity)
    (h : ProcessLoopInv lower genId files0 storedNames ids0 earlier st) :
    ProcessLoopInv lower genId files0 storedNames ids0 (earlier ++ [e])
        (processEntity lower genId campaignId now st e) ∧
      (processEntity lower genId campaignId now st e).newProfiles.map Profile.name =
        st.newProfiles.map Profile.name ++
          (if lower e.name ∉ storedNames ∧ lower e.name ∉ earlier.map (fun x => lower x.name)
            then [e] else []).map Entity.name := by
  obtain ⟨hmem, hdist, hfiles, hfresh, happ, hids⟩ := h
  by_cases hc : lower e.name ∈ st.existingNames
  · have hstep : processEntity lower genId campaignId now st e = st := by
      simp [processEntity, hc]
    have hor := (hmem _).mp hc
    rw [hstep]
    refine ⟨⟨?_, hdist, hfiles, hfresh, happ, hids⟩, ?_⟩
    · intro x
      rw [hmem x]
      simp only [List.map_append, List.map_cons, List.map_nil, List.mem_append,
        List.mem_singleton]
      constructor
      · rintro (h1 | h1)
        · exact Or.inl h1
        · exact Or.inr (Or.inl h1)
      · rintro (h1 | h1 | h1)
        · exact Or.inl h1
        · exact Or.inr h1
        · rw [h1]; exact hor
    · have : ¬ (lower e.name ∉ storedNames ∧ lower e.name ∉ earlier.map (fun x => lower x.name)) := by
        rintro ⟨h1, h2⟩
        rcases hor with h3 | h3
        · exact h1 h3
        · exact h2 h3
      rw [if_neg this]
      simp
  · have hnot : ¬ (lower e.name ∈ storedNames ∨ lower e.name ∈ earlier.map (fun x => lower x.name)) :=
      fun h1 => hc ((hmem _).mpr h1)
    have hwrite : ∀ q ∈ st.store.files, q.id ≠ genId st.store.idsUsed :=
      fun q hq => hfresh.2 _ (Nat.le_refl _) q hq
    have hstep : processEntity lower genId campaignId now st e =
        { store :=
            { files := st.store.files ++
                [{ id := genId st.store.idsUsed, campaignId := campaignId, name := e.name,
                   type := e.type, description := e.description, created := now,
                   autoGenerated := true }]
              idsUsed := st.store.idsUsed + 1 }
          existingNames := st.existingNames ++ [lower e.name]
          newProfiles := st.newProfiles ++
            [{ id := genId st.store.idsUsed, campaignId := campaignId, name := e.name,
               type := e.type, description := e.description, created := now,
               autoGenerated := true }] } := by
      simp only [processEntity]
      rw [if_neg (by simpa using hc)]
      rw [writeProfile_fresh _ _ hwrite]
    rw [hstep]
    refine ⟨⟨?_, ?_, ?_, ?_, ?_, ?_⟩, ?_⟩
    · intro x
      simp only [List.map_append, List.map_cons, List.map_nil, List.mem_append,
        List.mem_singleton]
      rw [hmem x]
      tauto
    · unfold DistinctNames at hdist ⊢
      simp only [List.map_append, List.map_cons, List.map_nil]
      rw [List.nodup_append]
      refine ⟨hdist, List.nodup_singleton _, ?_⟩
      intro x hx hx2
      rw [List.mem_singleton] at hx2
      subst hx2
      obtain ⟨p, hp, hpe⟩ := List.mem_map.mp hx
      exact hc (hpe ▸ hfiles p hp)
    · intro p hp
      simp only [List.mem_append, List.mem_singleton] at hp ⊢
      rcases hp with hp | hp
      · exact Or.inl (hfiles p hp)
      · right; rw [hp]
    · constructor
      · intro m n hm hn hmn
        exact hfresh.1 m n (by simp only at hm; omega) (by simp only at hn; omega) hmn
      · intro n hn q hq
        simp only at hn
        simp only [List.mem_append, List.mem_singleton] at hq
        rcases hq with hq | hq
        · exact hfresh.2 n (by omega) q hq
        · rw [hq]
          simp only
          intro heq
          have := hfresh.1 _ _ (Nat.le_refl _) (by omega : st.store.idsUsed ≤ n) heq
          omega
    · simp only [happ, List.append_assoc]
    · simp only [List.length_append, List.length_singleton, hids]
      omega
    · have : lower e.name ∉ storedNames ∧ lower e.name ∉ earlier.map (fun x => lower x.name) :=
        ⟨fun h1 => hnot (Or.inl h1), fun h1 => hnot (Or.inr h1)⟩
      simp [this]

/-- The loop of `process-entities` keeps the invariant and creates the profiles of
`firstNewEntities`, in this order. -/
theorem processLoop_inv (lower : String → String) (genId : Nat → String)
    (campaignId : String) (now : Nat) (files0 : List Profile) (storedNames : List String)
    (ids0 : Nat) (es : List Entity) (earlier : List Entity) (st : ProcessLoop)
    (h : ProcessLoopInv lower genId files0 storedNames ids0 earlier st) :
    ProcessLoopInv lower genId files0 storedNames ids0 (earlier ++ es)
        (es.foldl (processEntity lower genId campaignId now) st) ∧
      (es.foldl (processEntity lower genId campaignId now) st).newProfiles.map Profile.name =
        st.newProfiles.map Profile.name ++
          (firstNewEntities lower storedNames earlier es).map Entity.name := by
  induction es generalizing earlier st with
  | nil => simpa [firstNewEntities] using h
  | cons e es ih =>
      obtain ⟨hinv, hnew⟩ :=
        processEntity_inv lower genId campaignId now files0 storedNames ids0 earlier st e h
      obtain ⟨hinv2, hnew2⟩ := ih (earlier ++ [e]) _ hinv
      rw [List.foldl_cons]
      refine ⟨by simpa [List.append_assoc] using hinv2, ?_⟩
      rw [hnew2, hnew, firstNewEntities, List.map_append, List.append_assoc]

/-- A call of `process-entities` on a store with distinct names and fresh ids. -/
theorem processEntities_spec (lower : String → String) (genId : Nat → String)
    (campaignId : String) (now : Nat) (store : ProfileStore) (entities : List Entity)
    (hd : DistinctNames lower store.files) (hf : FreshIds genId store) :
    (processEntities lower genId campaignId now store entities).2.newProfiles.map Profile.name =
        (firstNewEntities lower (store.files.map fun p => lower p.name) [] entities).map
          Entity.name ∧
      (processEntities lower genId campaignId now store entities).1.files =
        store.files ++ (processEntities lower genId campaignId now store entities).2.newProfiles ∧
      DistinctNames lower (processEntities lower genId campaignId now store entities).1.files ∧
      FreshIds genId (processEntities lower genId campaignId now store entities).1 := by
  have h0 : ProcessLoopInv lower genId store.files (store.files.map fun p => lower p.name)
      store.idsUsed []
      { store := store, existingNames := store.files.map (fun p => lower p.name),
        newProfiles := [] } := by
    refine ⟨fun x => by simp, hd, ?_, hf, by simp, by simp⟩
    intro p hp
    exact List.mem_map.mpr ⟨p, hp, rfl⟩
  obtain ⟨⟨_, hdist, _, hfresh, happ, _⟩, hnew⟩ :=
    processLoop_inv lower genId campaignId now store.files _ store.idsUsed entities [] _ h0
  simp only [List.map_nil, List.nil_append] at hnew
  exact ⟨hnew, happ, hdist, hfresh⟩

/-- A sequence of `process-entities` calls keeps the names distinct and the ids fresh. -/
theorem processAll_inv (lower : String → String) (genId : Nat → String)
    (campaignId : String) (now : Nat) (calls : List (List Entity)) (store : ProfileStore)
    (hd : DistinctNames lower store.files) (hf : FreshIds genId store) :
    DistinctNames lower (processAll lower genId campaignId now store calls).files ∧
      FreshIds genId (processAll lower genId campaignId now store calls) := by
  unfold processAll
  induction calls generalizing store with
  | nil => exact ⟨hd, hf⟩
  | cons c cs ih =>
      obtain ⟨_, _, h3c, h4c⟩ := processEntities_spec lower genId campaignId now store c hd hf
      rw [List.foldl_cons]
      exact ih _ h3c h4c

/-! ## Auto-created profiles: claims -/

/-- C13: on a profiles directory whose stored names are pairwise distinct after case
folding, and with fresh ids from `generateId`, a `process-entities` call creates a profile
exactly for the entities whose case-folded name is not stored and differs from those of
all earlier entities of the input (returned in `newProfiles` in input order), adds these
files and nothing else, reports the input length as `totalProcessed`, and leaves the
stored names pairwise distinct; so they are pairwise distinct after every sequence of
calls. -/
theorem C13_profile_once_per_name (lower : String → String) (genId : Nat → String)
    (campaignId : String) (now : Nat) (store : ProfileStore) (entities : List Entity)
    (calls : List (List Entity))
    (hd : DistinctNames lower store.files) (hf : FreshIds genId store) :
    (processEntities lower genId campaignId now store entities).2.newProfiles.map Profile.name =
        (firstNewEntities lower (store.files.map fun p => lower p.name) [] entities).map
          Entity.name ∧
      (processEntities lower genId campaignId now store entities).1.files =
        store.files ++ (processEntities lower genId campaignId now store entities).2.newProfiles ∧
      DistinctNames lower (processEntities lower genId campaignId now store entities).1.files ∧
      (processEntities lower genId campaignId now store entities).2.totalProcessed =
        entities.length ∧
      DistinctNames lower (processAll lower genId campaignId now store calls).files := by
  obtain ⟨h1, h2, h3, _⟩ :=
    processEntities_spec lower genId campaignId now store entities hd hf
  exact ⟨h1, h2, h3, rfl, (processAll_inv lower genId campaignId now calls store hd hf).1⟩

/-- C13 at a store that holds `Grak`, with the input `grak`, `Mira`, `MIRA`: one profile is
created, for `Mira`. -/
theorem C13_profile_once_per_name_witness :
    (processEntities asciiLower (fun n => ⟨List.replicate n 'x'⟩) "c" 0
        { files := [{ id := "p-grak", campaignId := "c", name := "Grak", type := .str "monster",
                      description := .str "", created := 0, autoGenerated := true }],
          idsUsed := 0 }
        [{ name := "grak", type := .str "monster", description := .str "" },
         { name := "Mira", type := .str "character", description := .str "" },
         { name := "MIRA", type := .str "character", description := .str "" }]).2.newProfiles.map
        Profile.name = ["Mira"] :=
  (C13_profile_once_per_name asciiLower (fun n => ⟨List.replicate n 'x'⟩) "c" 0
      { files := [{ id := "p-grak", campaignId := "c", name := "Grak", type := .str "monster",
                    description := .str "", created := 0, autoGenerated := true }],
        idsUsed := 0 }
      [{ name := "grak", type := .str "monster", description := .str "" },
       { name := "Mira", type := .str "character", description := .str "" },
       { name := "MIRA", type := .str "character", description := .str "" }]
      []
      (by unfold DistinctNames; decide)
      ⟨fun m n _ _ h => by
          have := congrArg (fun t : String => t.data.length) h
          simpa using this,
       fun n _ p hp => by
          rw [List.mem_singleton.mp hp]
          intro h
          have h2 := congrArg (fun t : String => t.data) h
          simp only at h2
          cases n with
          | zero => simp at h2
          | succ n => simp [List.replicate_succ] at h2⟩).1.trans (by decide)

/-! ## Scene prompts and illustration: claims -/

theorem generateScenePrompt_surrogate_pairs :
    generateScenePrompt (utf16 ⟨List.replicate 60 (Char.ofNat 0x1F409)⟩) none =
      utf16 ("Fantasy RPG scene: " ++ ⟨List.replicate 50 (Char.ofNat 0x1F409)⟩ ++
        ", dramatic lighting, detailed fantasy art") := by
  decide

/-- C18: when the chat completion fails, `generateScenePrompt` returns the fixed opening,
the first `min(100, length)` characters of the text and the fixed ending, where a character
is a UTF-16 code unit and `length` counts code units, as `slice` and `length` of a
JavaScript string do; the result has at most 100 code units more than the two fixed parts
together. -/
theorem C18_fallback_prompt (sceneText : List Nat) :
    generateScenePrompt sceneText none =
        utf16 "Fantasy RPG scene: " ++ sceneText.take (min 100 sceneText.length) ++
          utf16 ", dramatic lighting, detailed fantasy art" ∧
      (generateScenePrompt sceneText none).length =
        (utf16 "Fantasy RPG scene: ").length + min 100 sceneText.length +
          (utf16 ", dramatic lighting, detailed fantasy art").length ∧
      (generateScenePrompt sceneText none).length ≤
        100 + ((utf16 "Fantasy RPG scene: ").length +
          (utf16 ", dramatic lighting, detailed fantasy art").length) := by
  have htake : sceneText.take (min 100 sceneText.length) = sceneText.take 100 := by
    rw [List.take_eq_take]
    omega
  have hlen : (jsSliceFrom0 sceneText 100).length = min 100 sceneText.length := by
    simp only [jsSliceFrom0, List.length_take]
  refine ⟨?_, ?_, ?_⟩
  · simp only [generateScenePrompt, jsSliceFrom0, htake]
  · simp only [generateScenePrompt, List.length_append, hlen]
  · simp only [generateScenePrompt, List.length_append, hlen]
    have : min 100 sceneText.length ≤ 100 := Nat.min_le_left _ _
    omega

/-- C17, as stated, fails: with the language model offline and the image service healthy,
`generateChunkImage` calls `sdGenerateImage` once with the text itself, which is not the
templated prompt of `generateScenePrompt`. -/
theorem C17_offline_sends_raw_text :
    (generateChunkImage (Coordinator.start false true false true) 0 "The party meets Grak").2 =
        [.sdGenerateImage "The party meets Grak"] ∧
      utf16 "The party meets Grak" ≠ generateScenePrompt (utf16 "The party meets Grak") none :=
  ⟨rfl, by decide⟩

/-! ## The coordinator: lemmas -/

theorem takeFirst_length {α : Type} (p : α → Bool) (l : List α) (x : α) (rest : List α)
    (h : takeFirst p l = some (x, rest)) : rest.length + 1 = l.length := by
  induction l generalizing x rest with
  | nil => simp [takeFirst] at h
  | cons y ys ih =>
      unfold takeFirst at h
      by_cases hy : p y = true
      · simp only [hy, if_true, Option.some.injEq, Prod.mk.injEq] at h
        rw [← h.2]; rfl
      · simp only [hy, Bool.false_eq_true, if_false] at h
        cases ht : takeFirst p ys with
        | none => simp [ht] at h
        | some pr =>
            obtain ⟨z, zs⟩ := pr
            simp only [ht, Option.some.injEq, Prod.mk.injEq] at h
            have := ih z zs ht
            rw [← h.2]
            simp only [List.length_cons]
            omega

/-- A task put at the end of the list is the one found when no earlier task matches. -/
theorem takeFirst_append_fresh {α : Type} (p : α → Bool) (l : List α) (x : α)
    (hx : p x = true) (hl : ∀ y ∈ l, p y = false) :
    takeFirst p (l ++ [x]) = some (x, l) := by
  induction l with
  | nil => simp [takeFirst, hx]
  | cons y ys ih =>
      have hy := hl y (List.mem_cons_self y ys)
      have := ih (fun z hz => hl z (List.mem_cons_of_mem y hz))
      simp [takeFirst, hy, this]

/-- After a matching task was put at the end of the list, some task is found. -/
theorem takeFirst_append_some {α : Type} (p : α → Bool) (l : List α) (x : α)
    (hx : p x = true) : ∃ y rest, takeFirst p (l ++ [x]) = some (y, rest) := by
  induction l with
  | nil => exact ⟨x, [], by simp [takeFirst, hx]⟩
  | cons y ys ih =>
      obtain ⟨z, rest, hz⟩ := ih
      by_cases hy : p y = true
      · exact ⟨y, ys ++ [x], by simp [takeFirst, hy]⟩
      · exact ⟨z, y :: rest, by simp [takeFirst, hy, hz]⟩

/-- A blank or failed result does not pass the test of line 107. -/
theorem acceptedText_blank (result : TranscribeResult)
    (h : ∀ t, result.text = some t → jsTrim t = "") : acceptedText result = none := by
  unfold acceptedText
  split
  · next t hs ht =>
      have := h t ht
      simp [this]
  · rfl

/-- The continuation after a result that does not pass the test of line 107 only runs the
`finally`. -/
theorem afterTranscribe_none (s : Coordinator) (rest : List (Nat × HandlePhase)) (i : Nat)
    (result : TranscribeResult) (now : Nat) (h : acceptedText result = none) :
    afterTranscribe s rest i result now = (finishHandle s rest, []) := by
  simp [afterTranscribe, h]

/-- The step that settles the transcription of a call with a result that does not pass the
test of line 107. -/
theorem cstep_transcribeDone_none (lower : String → String) (s : Coordinator) (i : Nat)
    (result : TranscribeResult) (now : Nat) (h : acceptedText result = none) :
    cstep lower s (.transcribeDone i (.ok result) now) =
      match takeFirst (fun t => t.1 == i && t.2.isTranscribe) s.handles with
      | none => (s, [])
      | some (_, rest) => (finishHandle s rest, []) := by
  simp only [cstep]
  split
  · rfl
  · simp [afterTranscribe_none _ _ _ _ _ h]

/-! ## The coordinator: claims -/

/-- C14: when the transcription of a segment returns a text that is empty or consists of
white space only, the rest of `handleChunk` makes no collaborator call (neither
`extractEntities` nor `processEntities` nor, through `generateChunkImage`,
`generateScenePrompt` or `sdGenerateImage`), starts no `generateChunkImage`, leaves the
transcript, the detected entities and `chunkImages` unchanged, and the call is over: this
holds in every state, so whatever the settings and the health of the collaborators. -/
theorem C14_blank_skips_enrichment (lower : String → String) (s : Coordinator) (i : Nat)
    (result : TranscribeResult) (now : Nat)
    (hblank : ∀ t, result.text = some t → jsTrim t = "") :
    (cstep lower s (.transcribeDone i (.ok result) now)).2 = [] ∧
      (cstep lower s (.transcribeDone i (.ok result) now)).1.detectedEntities =
        s.detectedEntities ∧
      (cstep lower s (.transcribeDone i (.ok result) now)).1.chunkImages = s.chunkImages ∧
      (cstep lower s (.transcribeDone i (.ok result) now)).1.images = s.images ∧
      (cstep lower s (.transcribeDone i (.ok result) now)).1.liveTranscript = s.liveTranscript ∧
      (s.session = true →
        (crun lower s [.chunk i, .transcribeDone i (.ok result) now]).1.handles.length =
          s.handles.length) := by
  have hnone := acceptedText_blank result hblank
  rw [cstep_transcribeDone_none lower s i result now hnone]
  refine ⟨?_, ?_, ?_, ?_, ?_, ?_⟩
  · split <;> rfl
  · split <;> rfl
  · split <;> rfl
  · split <;> rfl
  · split <;> rfl
  · intro hs
    have heq : (cstep lower s (.chunk i)).1.handles = s.handles ++ [(i, .awaitTranscribe)] := by
      simp [cstep, hs]
    obtain ⟨y, rest, hy⟩ := takeFirst_append_some
      (fun t : Nat × HandlePhase => t.1 == i && t.2.isTranscribe) s.handles
      (i, .awaitTranscribe) (by simp [HandlePhase.isTranscribe])
    have hlen := takeFirst_length _ _ _ _ hy
    simp only [crun]
    rw [cstep_transcribeDone_none lower _ i result now hnone, heq, hy]
    simp only [finishHandle]
    simp only [List.length_append, List.length_singleton] at hlen
    omega

/-- C14 at a transcription of two spaces, in a provider with every setting switched on and
both collaborators healthy: the continuation makes no call. -/
theorem C14_blank_skips_enrichment_witness :
    (cstep asciiLower (cstep asciiLower (Coordinator.start true true true true) (.chunk 0)).1
        (.transcribeDone 0 (.ok ⟨true, some "  "⟩) 1)).2 = [] :=
  (C14_blank_skips_enrichment asciiLower
    (cstep asciiLower (Coordinator.start true true true true) (.chunk 0)).1 0
    ⟨true, some "  "⟩ 1
    (by
      intro t ht
      have : t = "  " := by injection ht with ht; exact ht.symm
      rw [this]
      decide)).1

/-- C15, as stated, fails: after `handleChunk` has completed for segment 0 with a failed
transcription, or with a transcription of white space, the transcript holds no entry
with index 0. -/
theorem C15_no_entry_on_failure :
    entriesFor 0
        (crun asciiLower (Coordinator.start true true true true)
          [.chunk 0, .transcribeDone 0 (.ok ⟨false, none⟩) 5]).1.liveTranscript = 0 ∧
      (crun asciiLower (Coordinator.start true true true true)
          [.chunk 0, .transcribeDone 0 (.ok ⟨false, none⟩) 5]).1.handles.length = 0 ∧
      entriesFor 0
        (crun asciiLower (Coordinator.start true true true true)
          [.chunk 0, .transcribeDone 0 (.ok ⟨true, some "  "⟩) 5]).1.liveTranscript = 0 := by
  decide

/-- The step that settles the transcription of a call. -/
theorem cstep_transcribeDone_found (lower : String → String) (s : Coordinator) (i : Nat)
    (outcome : Except String TranscribeResult) (now : Nat) (x : Nat × HandlePhase)
    (rest : List (Nat × HandlePhase))
    (h : takeFirst (fun t => t.1 == i && t.2.isTranscribe) s.handles = some (x, rest)) :
    cstep lower s (.transcribeDone i outcome now) =
      match outcome with
      | .error _ => (finishHandle s rest, [])
      | .ok result => afterTranscribe s rest i result now := by
  simp only [cstep, h]

/-- The function `generateChunkImage` leaves the transcript alone. -/
theorem generateChunkImage_liveTranscript (s : Coordinator) (i : Nat) (text : String) :
    (generateChunkImage s i text).1.liveTranscript = s.liveTranscript := by
  unfold generateChunkImage
  split
  · rfl
  · split <;> rfl

/-- The transcript after the continuation that follows the transcription. -/
theorem afterTranscribe_liveTranscript (s : Coordinator) (rest : List (Nat × HandlePhase))
    (i : Nat) (result : TranscribeResult) (now : Nat) :
    (afterTranscribe s rest i result now).1.liveTranscript =
      s.liveTranscript ++
        (match acceptedText result with
          | some t => [{ index := i, text := t, time := now }]
          | none => []) := by
  unfold afterTranscribe
  cases h : acceptedText result with
  | none => simp [finishHandle]
  | some t =>
      simp only
      split
      · next hcond => split <;> simp [finishHandle, generateChunkImage_liveTranscript, appendTranscript]
      · next hcond => split <;> simp [finishHandle, appendTranscript]

/-- C15, amended: a `handleChunk` call for segment `i` with a session selected appends one
entry with index `i` and the trimmed text when the transcription passes the test of line
107, and no entry when the transcription rejects, fails or returns blank text; so the
number of entries with index `i` grows by one or by zero. The later steps of the call
(after `extractEntities` and `processEntities`) leave the transcript unchanged. -/
theorem C15_entry_iff_accepted (lower : String → String) (s : Coordinator) (i : Nat)
    (outcome : Except String TranscribeResult) (now : Nat) (hs : s.session = true) :
    (crun lower s [.chunk i, .transcribeDone i outcome now]).1.liveTranscript =
        s.liveTranscript ++
          (match outcome with
            | .ok result =>
                (match acceptedText result with
                  | some t => [{ index := i, text := t, time := now }]
                  | none => [])
            | .error _ => []) ∧
      entriesFor i (crun lower s [.chunk i, .transcribeDone i outcome now]).1.liveTranscript =
        entriesFor i s.liveTranscript +
          (match outcome with
            | .ok result => if (acceptedText result).isSome then 1 else 0
            | .error _ => 0) ∧
      (∀ (s2 : Coordinator) (j : Nat) (o : Except String ExtractResult),
        (cstep lower s2 (.extractDone j o)).1.liveTranscript = s2.liveTranscript) ∧
      (∀ (s2 : Coordinator) (j : Nat) (o : Except String Bool),
        (cstep lower s2 (.processDone j o)).1.liveTranscript = s2.liveTranscript) := by
  have heq : (cstep lower s (.chunk i)).1 =
      { s with processingChunk := true, handles := s.handles ++ [(i, .awaitTranscribe)] } := by
    simp [cstep, hs]
  obtain ⟨y, rest, hy⟩ := takeFirst_append_some
    (fun t : Nat × HandlePhase => t.1 == i && t.2.isTranscribe) s.handles
    (i, .awaitTranscribe) (by simp [HandlePhase.isTranscribe])
  have hlt : (crun lower s [.chunk i, .transcribeDone i outcome now]).1.liveTranscript =
      s.liveTranscript ++
        (match outcome with
          | .ok result =>
              (match acceptedText result with
                | some t => [{ index := i, text := t, time := now }]
                | none => [])
          | .error _ => []) := by
    simp only [crun]
    rw [heq, cstep_transcribeDone_found lower _ i outcome now y rest hy]
    cases outcome with
    | error msg => simp [finishHandle]
    | ok result => simp only [afterTranscribe_liveTranscript]
  refine ⟨hlt, ?_, ?_, ?_⟩
  · rw [hlt]
    unfold entriesFor
    cases outcome with
    | error msg => simp
    | ok result =>
        cases h : acceptedText result with
        | none => simp [h]
        | some t => simp [List.filter_append, h]
  · intro s2 j o
    simp only [cstep]
    split
    · rfl
    · cases o with
      | error msg => rfl
      | ok er => simp only; split <;> rfl
  · intro s2 j o
    simp only [cstep]
    split
    · split <;> rfl
    · rfl

/-- C15, amended, at a successful transcription of `" hello "` for segment 3. -/
theorem C15_entry_iff_accepted_witness :
    (crun asciiLower (Coordinator.start false false false false)
        [.chunk 3, .transcribeDone 3 (.ok ⟨true, some " hello "⟩) 9]).1.liveTranscript =
      [{ index := 3, text := "hello", time := 9 }] :=
  (C15_entry_iff_accepted asciiLower (Coordinator.start false false false false) 3
    (.ok ⟨true, some " hello "⟩) 9 rfl).1.trans (by decide)

/-- C16: when the transcription of segment `i` fails (the call rejects or returns
`success: false`) while a session is selected and no other call for `i` is suspended,
`handleChunk` runs to its end, leaves the state of the provider as it was except that
`processingChunk` is `false`, makes no call besides `transcribeChunk`, and every later
sequence of events that begins with `handleChunk` for another segment gives the same state
and the same calls as if segment `i` had never been handled. -/
theorem C16_failed_segment_leaves_no_trace (lower : String → String) (s : Coordinator)
    (i : Nat) (outcome : Except String TranscribeResult) (now : Nat)
    (hs : s.session = true) (hfresh : ∀ t ∈ s.handles, t.1 ≠ i)
    (hfail : TranscriptionFailed outcome) :
    (crun lower s [.chunk i, .transcribeDone i outcome now]).1 =
        { s with processingChunk := false } ∧
      (crun lower s [.chunk i, .transcribeDone i outcome now]).1.liveTranscript =
        s.liveTranscript ∧
      (crun lower s [.chunk i, .transcribeDone i outcome now]).1.detectedEntities =
        s.detectedEntities ∧
      (crun lower s [.chunk i, .transcribeDone i outcome now]).1.chunkImages = s.chunkImages ∧
      (crun lower s [.chunk i, .transcribeDone i outcome now]).1.processingChunk = false ∧
      (cstep lower (cstep lower s (.chunk i)).1 (.transcribeDone i outcome now)).2 = [] ∧
      (∀ (j : Nat) (evs : List CEvent),
        crun lower (crun lower s [.chunk i, .transcribeDone i outcome now]).1 (.chunk j :: evs) =
          crun lower s (.chunk j :: evs)) := by
  have heq : (cstep lower s (.chunk i)).1 =
      { s with processingChunk := true, handles := s.handles ++ [(i, .awaitTranscribe)] } := by
    simp [cstep, hs]
  have hy := takeFirst_append_fresh
    (fun t : Nat × HandlePhase => t.1 == i && t.2.isTranscribe) s.handles
    (i, .awaitTranscribe) (by simp [HandlePhase.isTranscribe])
    (fun t ht => by simp [hfresh t ht])
  have hstep : cstep lower (cstep lower s (.chunk i)).1 (.transcribeDone i outcome now) =
      ({ s with processingChunk := false }, []) := by
    rw [heq, cstep_transcribeDone_found lower _ i outcome now _ _ hy]
    cases outcome with
    | error msg => simp [finishHandle]
    | ok result =>
        have hsucc : result.success = false := hfail
        have hnone : acceptedText result = none := by
          unfold acceptedText
          rw [hsucc]
        simp [afterTranscribe_none _ _ _ _ _ hnone, finishHandle]
  have hrun : (crun lower s [.chunk i, .transcribeDone i outcome now]).1 =
      { s with processingChunk := false } := by
    simp only [crun, hstep]
  refine ⟨hrun, ?_, ?_, ?_, ?_, ?_, ?_⟩
  · rw [hrun]
  · rw [hrun]
  · rw [hrun]
  · rw [hrun]
  · rw [hstep]
  · intro j evs
    rw [hrun]
    have hc : cstep lower { s with processingChunk := false } (.chunk j) =
        cstep lower s (.chunk j) := by
      simp [cstep, hs]
    simp only [crun, hc]

/-- C16 at a provider with nothing in flight: the transcription of segment 0 rejects, and
handling segment 1 afterwards is as if segment 0 had never been handled. -/
theorem C16_failed_segment_witness :
    (crun asciiLower (Coordinator.start true true true true)
        [.chunk 0, .transcribeDone 0 (.error "Whisper model not found") 1]).1.processingChunk =
      false :=
  (C16_failed_segment_leaves_no_trace asciiLower (Coordinator.start true true true true) 0
    (.error "Whisper model not found") 1 rfl (fun t ht => by cases ht) trivial).2.2.2.2.1

/-- The function `generateChunkImage` leaves the suspended `handleChunk` calls, the flag and
the settings alone. -/
theorem generateChunkImage_frame (s : Coordinator) (i : Nat) (text : String) :
    (generateChunkImage s i text).1.handles = s.handles ∧
      (generateChunkImage s i text).1.processingChunk = s.processingChunk ∧
      (generateChunkImage s i text).1.autoDetect = s.autoDetect ∧
      (generateChunkImage s i text).1.llmReady = s.llmReady := by
  unfold generateChunkImage
  split
  · exact ⟨rfl, rfl, rfl, rfl⟩
  · split <;> exact ⟨rfl, rfl, rfl, rfl⟩

/-- The continuation after the transcription either ends the call, which clears the flag,
or suspends it again, which leaves the flag alone. -/
theorem afterTranscribe_flag (s : Coordinator) (rest : List (Nat × HandlePhase)) (i : Nat)
    (result : TranscribeResult) (now : Nat) :
    ((afterTranscribe s rest i result now).1.handles = rest ∧
        (afterTranscribe s rest i result now).1.processingChunk = false) ∨
      ((afterTranscribe s rest i result now).1.handles.length = rest.length + 1 ∧
        (afterTranscribe s rest i result now).1.processingChunk = s.processingChunk) := by
  unfold afterTranscribe
  cases h : acceptedText result with
  | none => left; simp [finishHandle]
  | some t =>
      simp only
      split
      · next hcond =>
          obtain ⟨h1, h2, _, _⟩ := generateChunkImage_frame
            { s with liveTranscript := appendTranscript s.liveTranscript i t now } i t
          split
          · right; simp [h2]
          · left; simp [finishHandle]
      · next hcond =>
          split
          · right; simp
          · left; simp [finishHandle]

/-- Every step either starts a `handleChunk` call and sets the flag, or ends one and clears
the flag, or leaves both the number of suspended calls and the flag as they were. -/
theorem cstep_flag (lower : String → String) (s : Coordinator) (e : CEvent) :
    ((cstep lower s e).1.handles.length = s.handles.length + 1 ∧
        (cstep lower s e).1.processingChunk = true) ∨
      ((cstep lower s e).1.handles.length + 1 = s.handles.length ∧
        (cstep lower s e).1.processingChunk = false) ∨
      ((cstep lower s e).1.handles.length = s.handles.length ∧
        (cstep lower s e).1.processingChunk = s.processingChunk) := by
  cases e with
  | chunk i =>
      by_cases hs : s.session = true
      · left; simp [cstep, hs]
      · right; right; simp [cstep, hs]
  | transcribeDone i outcome now =>
      cases h : takeFirst (fun t => t.1 == i && t.2.isTranscribe) s.handles with
      | none => right; right; simp [cstep, h]
      | some pr =>
          obtain ⟨x, rest⟩ := pr
          have hl := takeFirst_length _ _ _ _ h
          rw [cstep_transcribeDone_found lower s i outcome now x rest h]
          cases outcome with
          | error msg => right; left; simp [finishHandle, hl]
          | ok result =>
              rcases afterTranscribe_flag s rest i result now with ⟨h1, h2⟩ | ⟨h1, h2⟩
              · right; left; simp only; rw [h1, h2]; exact ⟨hl, rfl⟩
              · right; right; simp only; rw [h1, h2]; exact ⟨hl, rfl⟩
  | extractDone i outcome =>
      cases h : takeFirst (fun t => t.1 == i && t.2.isExtract) s.handles with
      | none => right; right; simp [cstep, h]
      | some pr =>
          obtain ⟨x, rest⟩ := pr
          have hl := takeFirst_length _ _ _ _ h
          simp only [cstep, h]
          cases outcome with
          | error msg => right; left; simp [finishHandle, hl]
          | ok er =>
              simp only
              split
              · right; right; simp [hl]
              · right; left; simp [finishHandle, hl]
  | processDone i outcome =>
      cases h : takeFirst (fun t => t.1 == i && t.2.isProcess) s.handles with
      | none => right; right; simp [cstep, h]
      | some pr =>
          obtain ⟨⟨j, ph⟩, rest⟩ := pr
          have hl := takeFirst_length _ _ _ _ h
          cases ph with
          | awaitProcess entities =>
              simp only [cstep, h]
              right; left
              split <;> simp [finishHandle, hl]
          | awaitTranscribe => right; right; simp [cstep, h]
          | awaitExtract => right; right; simp [cstep, h]
  | promptDone i outcome =>
      right; right
      simp only [cstep]
      split
      · split <;> exact ⟨rfl, rfl⟩
      · exact ⟨rfl, rfl⟩
  | sdDone i outcome =>
      right; right
      simp only [cstep]
      split
      · split
        · exact ⟨rfl, rfl⟩
        · split
          · split
            · split <;> exact ⟨rfl, rfl⟩
            · exact ⟨rfl, rfl⟩
          · exact ⟨rfl, rfl⟩
      · exact ⟨rfl, rfl⟩
  | saveDone i outcome =>
      right; right
      simp only [cstep]
      split
      · exact ⟨rfl, rfl⟩
      · split <;> exact ⟨rfl, rfl⟩

/-- C19, as stated, fails: with the calls for segments 0 and 1 both started, the end of the
call for segment 0 clears the flag while segment 1 still waits for its transcription;
and with a single call, the flag is cleared at the end of `handleChunk` while the detached
`generateChunkImage` of that segment still waits for the image service. -/
theorem C19_flag_cleared_while_in_flight :
    ((crun asciiLower (Coordinator.start true true true true)
        [.chunk 0, .chunk 1, .transcribeDone 0 (.error "failed") 5]).1.handles.map Prod.fst = [1] ∧
      (crun asciiLower (Coordinator.start true true true true)
        [.chunk 0, .chunk 1, .transcribeDone 0 (.error "failed") 5]).1.processingChunk = false) ∧
    ((crun asciiLower (Coordinator.start false true false true)
        [.chunk 0, .transcribeDone 0 (.ok ⟨true, some "hello"⟩) 5]).1.images.map Prod.fst = [0] ∧
      (crun asciiLower (Coordinator.start false true false true)
        [.chunk 0, .transcribeDone 0 (.ok ⟨true, some "hello"⟩) 5]).1.processingChunk = false) := by
  decide

/-- C19, amended: the flag `processingChunk` holds what the last start or end of a
`handleChunk` call wrote. In every state and for every event, the flag is `true` after a
step that starts a `handleChunk` call, `false` after a step that ends one (whether other
calls are still suspended or not), and unchanged after every other step, among them all
steps of `generateChunkImage`. -/
theorem C19_flag_follows_last_call_event (lower : String → String) (s : Coordinator)
    (e : CEvent) :
    (cstep lower s e).1.processingChunk =
      if s.handles.length < (cstep lower s e).1.handles.length then true
      else if (cstep lower s e).1.handles.length < s.handles.length then false
      else s.processingChunk := by
  rcases cstep_flag lower s e with ⟨h1, h2⟩ | ⟨h1, h2⟩ | ⟨h1, h2⟩
  · rw [h2, if_pos (by omega)]
  · rw [h2, if_neg (by omega), if_pos (by omega)]
  · rw [h2, if_neg (by omega), if_neg (by omega)]

/-- C17, amended: with the language model not ready and the image service healthy,
`generateChunkImage` calls `sdGenerateImage` once, with the text of the segment itself as
the prompt, and waits for it; the steps that follow (the end of `sdGenerateImage` and of
`saveGeneratedImage`) make no further call of `sdGenerateImage`. -/
theorem C17_offline_prompt_is_text (lower : String → String) (s : Coordinator) (i : Nat)
    (text : String) (hsd : s.sdSuccess = true) (hllm : s.llmReady = false) :
    (generateChunkImage s i text).2 = [.sdGenerateImage text] ∧
      (generateChunkImage s i text).1.images = s.images ++ [(i, .awaitSd text)] ∧
      (∀ (s2 : Coordinator) (j : Nat) (o : Except String SdResult),
        ((cstep lower s2 (.sdDone j o)).2.filter Call.isSdGenerateImage) = []) ∧
      (∀ (s2 : Coordinator) (j : Nat) (o : Except String Unit),
        ((cstep lower s2 (.saveDone j o)).2.filter Call.isSdGenerateImage) = []) := by
  refine ⟨by simp [generateChunkImage, hsd, hllm], by simp [generateChunkImage, hsd, hllm], ?_, ?_⟩
  · intro s2 j o
    simp only [cstep]
    split
    · split
      · rfl
      · split
        · split
          · split <;> rfl
          · rfl
        · rfl
    · rfl
  · intro s2 j o
    simp only [cstep]
    split
    · rfl
    · split <;> rfl

/-- C17, amended, at the text of Scenario A's segment. -/
theorem C17_offline_prompt_is_text_witness :
    (generateChunkImage (Coordinator.start false true false true) 0
        "The party meets Grak the Orc near the Sunken Tower.").2 =
      [.sdGenerateImage "The party meets Grak the Orc near the Sunken Tower."] :=
  (C17_offline_prompt_is_text asciiLower (Coordinator.start false true false true) 0
    "The party meets Grak the Orc near the Sunken Tower." rfl rfl).1

/-! ## Session images: lemmas -/

theorem saveGeneratedImage_fresh (imagesDir : String) (files : List ImageData)
    (imageId : String) (metadata : ImageMetadata) (now : Nat)
    (h : ∀ f ∈ files, f.id ≠ imageId) :
    saveGeneratedImage imagesDir files imageId metadata now =
      files ++ [imageRecord imagesDir imageId metadata now] := by
  unfold saveGeneratedImage
  have : files.any (fun f => f.id == imageId) = false := by
    rw [List.any_eq_false]
    intro f hf
    simpa using h f hf
  simp [this]

theorem sortNewestFirst_sorted (images : List ImageData) :
    (sortNewestFirst images).Sorted (fun a b => b.created ≤ a.created) := by
  haveI : IsTotal ImageData (fun a b => b.created ≤ a.created) :=
    ⟨fun a b => Nat.le_total b.created a.created⟩
  haveI : IsTrans ImageData (fun a b => b.created ≤ a.created) :=
    ⟨fun _ _ _ hab hbc => Nat.le_trans hbc hab⟩
  exact List.sorted_insertionSort _ images

theorem mem_sortNewestFirst (images : List ImageData) (img : ImageData) :
    img ∈ sortNewestFirst images ↔ img ∈ images :=
  List.mem_insertionSort _

theorem mem_getImagesForChunk (images : List ImageData) (k : Nat) (img : ImageData) :
    img ∈ getImagesForChunk images k ↔ img ∈ images ∧ img.chunkIndex = some k := by
  unfold getImagesForChunk
  rw [mem_sortNewestFirst, List.mem_filter]
  simp

/-- In a list sorted by creation time, latest first, an element comes before every element
with an earlier creation time. -/
theorem newer_before_older (l : List ImageData) (a b : ImageData)
    (hs : l.Sorted (fun x y => y.created ≤ x.created)) (ha : a ∈ l) (hb : b ∈ l)
    (hlt : b.created < a.created) : [a, b].Sublist l := by
  induction l with
  | nil => cases ha
  | cons x xs ih =>
      have hp := List.pairwise_cons.mp hs
      rcases List.mem_cons.mp ha with hax | hax
      · rcases List.mem_cons.mp hb with hbx | hbx
        · rw [hax, hbx] at hlt; omega
        · rw [hax]
          exact List.Sublist.cons₂ x (List.singleton_sublist.mpr hbx)
      · rcases List.mem_cons.mp hb with hbx | hbx
        · have := hp.1 a hax
          rw [hbx] at hlt
          omega
        · exact List.Sublist.cons x (ih hp.2 hax hbx)

/-! ## Session images: claims -/

/-- C20: when `save-generated-image` is called twice for the same segment index `k` with
fresh ids and distinct creation times, the two records are added to the records already
stored; whatever the order in which the directory lists the files, `getImagesForChunk(k)`
over the result of `get-session-images` contains both, the one created later before the
other; and in general `getImagesForChunk` returns exactly the images of the index, sorted
by creation time, latest first. -/
theorem C20_both_images_newest_first (imagesDir : String) (files listing : List ImageData)
    (id1 id2 : String) (m1 m2 : ImageMetadata) (t1 t2 k : Nat)
    (h1 : ∀ f ∈ files, f.id ≠ id1) (h2 : ∀ f ∈ files, f.id ≠ id2) (h12 : id1 ≠ id2)
    (ht : t1 ≠ t2) (hk1 : m1.chunkIndex = some k) (hk2 : m2.chunkIndex = some k)
    (hl : listing.Perm
      (saveGeneratedImage imagesDir (saveGeneratedImage imagesDir files id1 m1 t1) id2 m2 t2)) :
    saveGeneratedImage imagesDir (saveGeneratedImage imagesDir files id1 m1 t1) id2 m2 t2 =
        files ++ [imageRecord imagesDir id1 m1 t1, imageRecord imagesDir id2 m2 t2] ∧
      imageRecord imagesDir id1 m1 t1 ∈ getImagesForChunk (getSessionImages listing) k ∧
      imageRecord imagesDir id2 m2 t2 ∈ getImagesForChunk (getSessionImages listing) k ∧
      (if t1 < t2 then
          [imageRecord imagesDir id2 m2 t2, imageRecord imagesDir id1 m1 t1].Sublist
            (getImagesForChunk (getSessionImages listing) k)
        else
          [imageRecord imagesDir id1 m1 t1, imageRecord imagesDir id2 m2 t2].Sublist
            (getImagesForChunk (getSessionImages listing) k)) ∧
      (∀ (images : List ImageData) (j : Nat),
        (getImagesForChunk images j).Sorted (fun a b => b.created ≤ a.created)) ∧
      (∀ (images : List ImageData) (j : Nat) (img : ImageData),
        img ∈ getImagesForChunk images j ↔ img ∈ images ∧ img.chunkIndex = some j) := by
  have hs1 := saveGeneratedImage_fresh imagesDir files id1 m1 t1 h1
  have hs2 : saveGeneratedImage imagesDir (saveGeneratedImage imagesDir files id1 m1 t1) id2 m2 t2 =
      files ++ [imageRecord imagesDir id1 m1 t1, imageRecord imagesDir id2 m2 t2] := by
    rw [hs1, saveGeneratedImage_fresh]
    · simp
    · intro f hf
      rcases List.mem_append.mp hf with hf | hf
      · exact h2 f hf
      · rw [List.mem_singleton.mp hf]
        exact h12
  rw [hs2] at hl
  have hm1 : imageRecord imagesDir id1 m1 t1 ∈ getImagesForChunk (getSessionImages listing) k := by
    rw [mem_getImagesForChunk, getSessionImages, mem_sortNewestFirst, hl.mem_iff]
    exact ⟨by simp, hk1⟩
  have hm2 : imageRecord imagesDir id2 m2 t2 ∈ getImagesForChunk (getSessionImages listing) k := by
    rw [mem_getImagesForChunk, getSessionImages, mem_sortNewestFirst, hl.mem_iff]
    exact ⟨by simp, hk2⟩
  have hsorted : ∀ (images : List ImageData) (j : Nat),
      (getImagesForChunk images j).Sorted (fun a b => b.created ≤ a.created) :=
    fun images j => sortNewestFirst_sorted _
  refine ⟨hs2, hm1, hm2, ?_, hsorted, mem_getImagesForChunk⟩
  split
  · next hlt => exact newer_before_older _ _ _ (hsorted _ _) hm2 hm1 hlt
  · next hge =>
      exact newer_before_older _ _ _ (hsorted _ _) hm1 hm2
        (show t2 < t1 by omega)

/-- C20 at an empty images directory and two images for segment 4, the second created
later: `getImagesForChunk(4)` lists the second before the first. -/
theorem C20_both_images_newest_first_witness :
    getImagesForChunk
        (getSessionImages
          (saveGeneratedImage "images"
            (saveGeneratedImage "images" [] "a" ⟨some "orc", none, some 4, none, none⟩ 100)
            "b" ⟨some "tower", none, some 4, none, none⟩ 200)) 4 =
      [imageRecord "images" "b" ⟨some "tower", none, some 4, none, none⟩ 200,
       imageRecord "images" "a" ⟨some "orc", none, some 4, none, none⟩ 100] ∧
    saveGeneratedImage "images"
        (saveGeneratedImage "images" [] "a" ⟨some "orc", none, some 4, none, none⟩ 100)
        "b" ⟨some "tower", none, some 4, none, none⟩ 200 =
      [] ++ [imageRecord "images" "a" ⟨some "orc", none, some 4, none, none⟩ 100,
        imageRecord "images" "b" ⟨some "tower", none, some 4, none, none⟩ 200] :=
  ⟨by decide,
   (C20_both_images_newest_first "images" []
      (saveGeneratedImage "images"
        (saveGeneratedImage "images" [] "a" ⟨some "orc", none, some 4, none, none⟩ 100)
        "b" ⟨some "tower", none, some 4, none, none⟩ 200)
      "a" "b" ⟨some "orc", none, some 4, none, none⟩ ⟨some "tower", none, some 4, none, none⟩
      100 200 4 (fun f hf => by cases hf) (fun f hf => by cases hf) (by decide) (by decide)
      rfl rfl (List.Perm.refl _)).1⟩

/-! ## Pausing and offsets: claims -/

/-- While the chunk timer is off, an event other than `resumeRecording` and `flushChunk`
emits nothing and changes neither the timer nor the counters. -/
theorem step_timer_off (r : Recorder) (e : RecEvent) (ht : r.chunkTimer = false)
    (he : e.keepsPaused = true) :
    (step r e).2 = none ∧ (step r e).1.chunkTimer = false ∧
      (step r e).1.chunkCount = r.chunkCount ∧
      (step r e).1.chunkCountRef = r.chunkCountRef := by
  cases e with
  | data b =>
      simp only [step, onDataAvailable]
      split <;> simp [ht]
  | tick => simp [step, chunkTimerTick, ht]
  | flush => simp [RecEvent.keepsPaused] at he
  | pause =>
      simp only [step, pauseRecording]
      split <;> simp [ht]
  | resume => simp [RecEvent.keepsPaused] at he

theorem run_timer_off (r : Recorder) (evs : List RecEvent) (ht : r.chunkTimer = false)
    (he : evs.all RecEvent.keepsPaused = true) :
    (run r evs).2 = [] ∧ (run r evs).1.chunkCount = r.chunkCount ∧
      (run r evs).1.chunkCountRef = r.chunkCountRef := by
  induction evs generalizing r with
  | nil => simp [run]
  | cons e es ih =>
      simp only [List.all_cons, Bool.and_eq_true] at he
      obtain ⟨h1, h2, h3, h4⟩ := step_timer_off r e ht he.1
      obtain ⟨i1, i2, i3⟩ := ih (step r e).1 h2 he.2
      rw [run_cons]
      simp only [h1, Option.toList, List.nil_append, i1, i2, i3, h3, h4, and_self]

theorem takeAt_perm {α : Type} (k : Nat) (l : List α) (x : α) (rest : List α)
    (h : takeAt k l = some (x, rest)) : (x :: rest).Perm l := by
  induction l generalizing k x rest with
  | nil => cases k <;> simp [takeAt] at h
  | cons y ys ih =>
      cases k with
      | zero =>
          simp only [takeAt, Option.some.injEq, Prod.mk.injEq] at h
          rw [← h.1, ← h.2]
      | succ k =>
          simp only [takeAt, Option.map_eq_some'] at h
          obtain ⟨p, hp, hx⟩ := h
          simp only [Prod.mk.injEq] at hx
          have h1 := ih k p.1 p.2 hp
          rw [← hx.1, ← hx.2]
          exact (List.Perm.swap y p.1 p.2).trans (h1.cons y)

/-- While the chunk timer is off, events other than `resumeRecording` and `flushChunk`
build no segment and leave the counters alone; the segments handed to `onChunk` meanwhile
and the segments still waiting afterwards are the segments that were waiting before. -/
theorem asyncRun_timer_off (a : RecorderAsync) (evs : List AsyncEvent)
    (ht : a.recorder.chunkTimer = false) (he : evs.all AsyncEvent.keepsPaused = true) :
    (asyncRun a evs).2.1 = [] ∧
      ((asyncRun a evs).2.2 ++ (asyncRun a evs).1.awaiting).Perm a.awaiting ∧
      (asyncRun a evs).1.recorder.chunkCount = a.recorder.chunkCount ∧
      (asyncRun a evs).1.recorder.chunkCountRef = a.recorder.chunkCountRef := by
  induction evs generalizing a with
  | nil => simp [asyncRun]
  | cons e es ih =>
      simp only [List.all_cons, Bool.and_eq_true] at he
      cases e with
      | hook e =>
          obtain ⟨h1, h2, h3, h4⟩ := step_timer_off a.recorder e ht he.1
          have hs : asyncStep a (.hook e) =
              (⟨(step a.recorder e).1, a.awaiting⟩, none, none) := by
            simp [asyncStep, h1]
          obtain ⟨i1, i2, i3, i4⟩ := ih ⟨(step a.recorder e).1, a.awaiting⟩ h2 he.2
          simp only [asyncRun, hs, Option.toList, List.nil_append]
          exact ⟨i1, i2, i3.trans h3, i4.trans h4⟩
      | arrayBufferReady k =>
          cases hk : takeAt k a.awaiting with
          | none =>
              have hs : asyncStep a (.arrayBufferReady k) = (a, none, none) := by
                simp [asyncStep, hk]
              simp only [asyncRun, hs, Option.toList, List.nil_append]
              exact ih a ht he.2
          | some p =>
              have hs : asyncStep a (.arrayBufferReady k) =
                  (⟨a.recorder, p.2⟩, none, some p.1) := by
                simp [asyncStep, hk]
              obtain ⟨i1, i2, i3, i4⟩ := ih ⟨a.recorder, p.2⟩ ht he.2
              simp only [asyncRun, hs, Option.toList, List.nil_append, List.singleton_append,
                List.cons_append]
              exact ⟨i1, (i2.cons p.1).trans (takeAt_perm k a.awaiting p.1 p.2 hk), i3, i4⟩

/-- C21, as stated, fails in two ways. A `flushChunk` between `pauseRecording` and
`resumeRecording` builds a segment from the buffers that were pending when the recording
was paused, and `chunkCount` goes from 0 to 1. And a segment that the interval timer built
just before the pause is handed to `onChunk` during the pause, when its `arrayBuffer()`
promise resolves. -/
theorem C21_emission_while_paused :
    ((run (startRecording (Recorder.init true) true) [.data ⟨[1]⟩, .pause]).1.mediaRecorder =
        some .paused ∧
      (run (startRecording (Recorder.init true) true) [.data ⟨[1]⟩, .pause, .flush]).2 =
        [⟨0, [⟨[1]⟩]⟩] ∧
      (run (startRecording (Recorder.init true) true) [.data ⟨[1]⟩, .pause]).1.chunkCount = 0 ∧
      (run (startRecording (Recorder.init true) true) [.data ⟨[1]⟩, .pause, .flush]).1.chunkCount =
        1) ∧
    ((asyncRun ⟨startRecording (Recorder.init true) true, []⟩
          [.hook (.data ⟨[1]⟩), .hook .tick, .hook .pause]).1.recorder.mediaRecorder =
        some .paused ∧
      (asyncRun ⟨startRecording (Recorder.init true) true, []⟩
          [.hook (.data ⟨[1]⟩), .hook .tick, .hook .pause]).2.2 = [] ∧
      (asyncRun ⟨startRecording (Recorder.init true) true, []⟩
          [.hook (.data ⟨[1]⟩), .hook .tick, .hook .pause, .arrayBufferReady 0]).2.2 =
        [⟨0, [⟨[1]⟩]⟩]) := by
  decide

/-- C21, amended: after a `pauseRecording` that takes effect, whatever buffer arrivals,
interval-timer ticks, further `pauseRecording` calls and resolutions of `arrayBuffer()`
promises occur before the next `resumeRecording` or `flushChunk`, `processChunk` builds no
segment and `chunkCount` does not change, also when buffers are pending; the segments
handed to `onChunk` in that time, together with those still waiting at its end, are the
segments that were built before the pause and were still waiting for their `arrayBuffer()`
when it took effect. -/
theorem C21_paused_builds_no_segment (a : RecorderAsync) (evs : List AsyncEvent)
    (hrec : a.recorder.mediaRecorder = some .recording)
    (hevs : evs.all AsyncEvent.keepsPaused = true) :
    (pauseRecording a.recorder).mediaRecorder = some .paused ∧
      (asyncRun ⟨pauseRecording a.recorder, a.awaiting⟩ evs).2.1 = [] ∧
      ((asyncRun ⟨pauseRecording a.recorder, a.awaiting⟩ evs).2.2 ++
          (asyncRun ⟨pauseRecording a.recorder, a.awaiting⟩ evs).1.awaiting).Perm a.awaiting ∧
      (asyncRun ⟨pauseRecording a.recorder, a.awaiting⟩ evs).1.recorder.chunkCount =
        a.recorder.chunkCount ∧
      (asyncRun ⟨pauseRecording a.recorder, a.awaiting⟩ evs).1.recorder.chunkCountRef =
        a.recorder.chunkCountRef := by
  have hp : pauseRecording a.recorder =
      { a.recorder with mediaRecorder := some .paused, chunkTimer := false } := by
    simp [pauseRecording, hrec]
  obtain ⟨h1, h2, h3, h4⟩ :=
    asyncRun_timer_off ⟨pauseRecording a.recorder, a.awaiting⟩ evs (by rw [hp]) hevs
  refine ⟨by rw [hp], h1, h2, ?_, ?_⟩
  · rw [h3, hp]
  · rw [h4, hp]

/-- C21, amended, at a recording whose first segment was built by a tick and is still
waiting for its `arrayBuffer()`, with one more buffer pending, that is paused and then sees
a tick, the resolution of the promise, a buffer and another tick: no segment is built, and
the one segment handed to `onChunk` is the one built before the pause. -/
theorem C21_paused_builds_no_segment_witness :
    (asyncRun ⟨startRecording (Recorder.init true) true, []⟩
          [.hook (.data ⟨[1]⟩), .hook .tick, .hook (.data ⟨[2]⟩)]).1.recorder.mediaRecorder =
        some .recording ∧
      (asyncRun
          ⟨pauseRecording (asyncRun ⟨startRecording (Recorder.init true) true, []⟩
              [.hook (.data ⟨[1]⟩), .hook .tick, .hook (.data ⟨[2]⟩)]).1.recorder,
            (asyncRun ⟨startRecording (Recorder.init true) true, []⟩
              [.hook (.data ⟨[1]⟩), .hook .tick, .hook (.data ⟨[2]⟩)]).1.awaiting⟩
          [.hook .tick, .arrayBufferReady 0, .hook (.data ⟨[3]⟩), .hook .tick]).2.1 = [] ∧
      (asyncRun
          ⟨pauseRecording (asyncRun ⟨startRecording (Recorder.init true) true, []⟩
              [.hook (.data ⟨[1]⟩), .hook .tick, .hook (.data ⟨[2]⟩)]).1.recorder,
            (asyncRun ⟨startRecording (Recorder.init true) true, []⟩
              [.hook (.data ⟨[1]⟩), .hook .tick, .hook (.data ⟨[2]⟩)]).1.awaiting⟩
          [.hook .tick, .arrayBufferReady 0, .hook (.data ⟨[3]⟩), .hook .tick]).2.2 =
        [⟨0, [⟨[1]⟩]⟩] :=
  ⟨by decide,
    (C21_paused_builds_no_segment
      (asyncRun ⟨startRecording (Recorder.init true) true, []⟩
        [.hook (.data ⟨[1]⟩), .hook .tick, .hook (.data ⟨[2]⟩)]).1
      [.hook .tick, .arrayBufferReady 0, .hook (.data ⟨[3]⟩), .hook .tick]
      (by decide) (by decide)).2.1,
    by decide⟩

/-- C22 fails on the code. With one buffer per second and a tick every 12 seconds of the
running timer: after 5 seconds, a pause and a resume, the timer starts anew, so segment 0
holds 17 buffers and segment 1 begins 17 buffers into the capture; and after a
`flushChunk` at 5 seconds, segment 1 begins 5 buffers into the capture. In both cases the
offset is not 12, as it is when neither happens. -/
theorem C22_offset_not_twelve :
    startOffset
        (run (startRecording (Recorder.init true) true)
          (secondsOfCapture 5 ++ [.pause, .resume] ++ secondsOfCapture 12 ++ [.tick] ++
            secondsOfCapture 12 ++ [.tick])).2 1 = 17 ∧
      (run (startRecording (Recorder.init true) true)
          (secondsOfCapture 5 ++ [.pause, .resume] ++ secondsOfCapture 12 ++ [.tick] ++
            secondsOfCapture 12 ++ [.tick])).2.map Segment.index = [0, 1] ∧
      startOffset
        (run (startRecording (Recorder.init true) true)
          (secondsOfCapture 5 ++ [.flush] ++ secondsOfCapture 7 ++ [.tick])).2 1 = 5 ∧
      (run (startRecording (Recorder.init true) true)
          (secondsOfCapture 5 ++ [.flush] ++ secondsOfCapture 7 ++ [.tick])).2.map
          Segment.index = [0, 1] ∧
      startOffset
        (run (startRecording (Recorder.init true) true)
          (secondsOfCapture 12 ++ [.tick] ++ secondsOfCapture 12 ++ [.tick])).2 1 = 12 := by
  decide

/-! ## The persisted timeline: claims -/

theorem toDigitsCore_length_ge (f n : Nat) (l : List Char) :
    l.length ≤ (Nat.toDigitsCore 10 f n l).length := by
  induction f generalizing n l with
  | zero => simp [Nat.toDigitsCore]
  | succ f ih =>
      simp only [Nat.toDigitsCore]
      split
      · simp
      · exact Nat.le_trans (by simp) (ih _ _)

/-- A number from 10 on has at least two decimal digits. -/
theorem toString_length_two (n : Nat) (h : 10 ≤ n) : 2 ≤ (toString n).length := by
  show 2 ≤ (Nat.repr n).length
  simp only [Nat.repr, Nat.toDigits, String.length, List.asString]
  obtain ⟨m, rfl⟩ : ∃ m, n = m + 1 := ⟨n - 1, by omega⟩
  have h1 : (m + 1) / 10 ≠ 0 := by omega
  rw [Nat.toDigitsCore]
  simp only [h1, if_false]
  rw [Nat.toDigitsCore]
  split
  · simp
  · exact Nat.le_trans (by simp) (toDigitsCore_length_ge _ _ _)

/-- A number below 10 has one decimal digit. -/
theorem toString_length_one (n : Nat) (h : n < 10) : (toString n).length = 1 := by
  interval_cases n <;> rfl

/-- The call `String(n).padStart(2, '0')` pads to two digits as the specification says. -/
theorem padStart2_eq_twoDigits (n : Nat) : padStart2 n = twoDigits n := by
  unfold padStart2 twoDigits
  by_cases h : n < 10
  · have hl := toString_length_one n h
    simp only [hl, h, if_true]
    rfl
  · have hl := toString_length_two n (by omega)
    have : ¬ (toString n).length < 2 := by omega
    simp only [this, h, if_false]

/-- C23: the `chunks` written by `stopRecording` keep the length and order of the live
transcript and the index and text of every entry, and the timestamp of an entry with
index `i` is `MM:SS` with `MM = floor(12 i / 60)` and `SS = 12 i mod 60`, each in decimal
with a leading zero when below 10; so `60 MM + SS = 12 i` and `SS` is one of 00, 12, 24,
36, 48. -/
theorem C23_persisted_chunks (liveTranscript : List TranscriptItem) (i : Nat) :
    savedChunks liveTranscript =
        liveTranscript.map (fun item =>
          { index := item.index, text := item.text, timestamp := timestampLabel item.index }) ∧
      (savedChunks liveTranscript).length = liveTranscript.length ∧
      (savedChunks liveTranscript).map SavedChunk.index =
        liveTranscript.map TranscriptItem.index ∧
      (savedChunks liveTranscript).map SavedChunk.text =
        liveTranscript.map TranscriptItem.text ∧
      60 * (12 * i / 60) + 12 * i % 60 = 12 * i ∧
      twoDigits (12 * i % 60) ∈ ["00", "12", "24", "36", "48"] := by
  have h1 : savedChunks liveTranscript =
      liveTranscript.map (fun item =>
        { index := item.index, text := item.text, timestamp := timestampLabel item.index }) := by
    unfold savedChunks timestampLabel
    apply List.map_congr_left
    intro item _
    rw [padStart2_eq_twoDigits, padStart2_eq_twoDigits]
    have : item.index * 12 = 12 * item.index := Nat.mul_comm _ _
    rw [this]
  refine ⟨h1, ?_, ?_, ?_, ?_, ?_⟩
  · rw [h1, List.length_map]
  · rw [h1, List.map_map]; rfl
  · rw [h1, List.map_map]; rfl
  · omega
  · have h : 12 * i % 60 = 0 ∨ 12 * i % 60 = 12 ∨ 12 * i % 60 = 24 ∨ 12 * i % 60 = 36 ∨
        12 * i % 60 = 48 := by omega
    rcases h with h | h | h | h | h <;> rw [h] <;> decide

/-! ## More on entity extraction and illustration: claims -/

/-- C24 fails on the code: for an array text with three backticks inside a string, the
two `replace` calls that strip the fence of a fenced response also remove the backticks
inside the array, so the text handed to `JSON.parse` is another one than for the bare
response and the returned names differ (`ab` instead of the name with the backticks).
For the array text with `Grak`, which holds no backticks, the fenced and the bare
response are cleaned to the same text. -/
theorem C24_fence_stripping_changes_content :
    cleanResponse "[\x7b\"name\":\"a```b\",\"type\":\"item\"\x7d]" =
        "[\x7b\"name\":\"a```b\",\"type\":\"item\"\x7d]" ∧
      cleanResponse ("```json\n" ++ "[\x7b\"name\":\"a```b\",\"type\":\"item\"\x7d]" ++ "\n```") =
        "[\x7b\"name\":\"ab\",\"type\":\"item\"\x7d]" ∧
      (extractEntities
          (parseTable
            [("[\x7b\"name\":\"a```b\",\"type\":\"item\"\x7d]",
                .arr [.obj [("name", .str "a```b"), ("type", .str "item")]]),
             ("[\x7b\"name\":\"ab\",\"type\":\"item\"\x7d]",
                .arr [.obj [("name", .str "ab"), ("type", .str "item")]])])
          (some "[\x7b\"name\":\"a```b\",\"type\":\"item\"\x7d]")).map Entity.name = ["a```b"] ∧
      (extractEntities
          (parseTable
            [("[\x7b\"name\":\"a```b\",\"type\":\"item\"\x7d]",
                .arr [.obj [("name", .str "a```b"), ("type", .str "item")]]),
             ("[\x7b\"name\":\"ab\",\"type\":\"item\"\x7d]",
                .arr [.obj [("name", .str "ab"), ("type", .str "item")]])])
          (some ("```json\n" ++ "[\x7b\"name\":\"a```b\",\"type\":\"item\"\x7d]" ++ "\n```"))).map
          Entity.name = ["ab"] ∧
      cleanResponse ("  ```\n" ++ "[\x7b\"name\":\"Grak\",\"type\":\"monster\"\x7d]" ++ "\n```  ") =
        cleanResponse "[\x7b\"name\":\"Grak\",\"type\":\"monster\"\x7d]" := by
  decide

/-- C25: `extractEntities` is a total function into lists. It returns the empty list when
the chat completion fails, and whenever `JSON.parse` throws on the cleaned response or
gives a value that is not an array; the handler `extract-entities` reports success with
that list in every case. -/
theorem C25_malformed_response_gives_empty (parse : String → Option JsValue)
    (response : String) (completion : Option String) :
    extractEntities parse none = [] ∧
      extractEntities parse (some response) =
        (if (parse (cleanResponse response)).map JsValue.isArray = some true
          then extractEntities parse (some response) else []) ∧
      (extractEntitiesHandler parse completion).success = true ∧
      (extractEntitiesHandler parse completion).entities = extractEntities parse completion := by
  refine ⟨rfl, ?_, rfl, rfl⟩
  cases h : parse (cleanResponse response) with
  | none => simp [extractEntities, h]
  | some v =>
      cases v with
      | arr xs => simp [JsValue.isArray]
      | undefined => simp [extractEntities, h, JsValue.isArray]
      | null => simp [extractEntities, h, JsValue.isArray]
      | bool b => simp [extractEntities, h, JsValue.isArray]
      | num n => simp [extractEntities, h, JsValue.isArray]
      | str t => simp [extractEntities, h, JsValue.isArray]
      | obj props => simp [extractEntities, h, JsValue.isArray]

theorem takeFirst_mem {α : Type} (p : α → Bool) (l : List α) (x : α) (rest : List α)
    (h : takeFirst p l = some (x, rest)) : x ∈ l ∧ ∀ y ∈ rest, y ∈ l := by
  induction l generalizing x rest with
  | nil => simp [takeFirst] at h
  | cons z zs ih =>
      unfold takeFirst at h
      by_cases hz : p z = true
      · simp only [hz, if_true, Option.some.injEq, Prod.mk.injEq] at h
        obtain ⟨h1, h2⟩ := h
        subst h1 h2
        exact ⟨List.mem_cons_self _ _, fun y hy => List.mem_cons_of_mem _ hy⟩
      · simp only [hz, Bool.false_eq_true, if_false] at h
        cases ht : takeFirst p zs with
        | none => simp [ht] at h
        | some pr =>
            obtain ⟨w, ws⟩ := pr
            simp only [ht, Option.some.injEq, Prod.mk.injEq] at h
            obtain ⟨h1, h2⟩ := h
            subst h1 h2
            obtain ⟨i1, i2⟩ := ih w ws ht
            refine ⟨List.mem_cons_of_mem _ i1, ?_⟩
            intro y hy
            rcases List.mem_cons.mp hy with hy | hy
            · rw [hy]; exact List.mem_cons_self _ _
            · exact List.mem_cons_of_mem _ (i2 y hy)

/-- A text that passes the test of line 107 is not empty. -/
theorem acceptedText_ne_empty (result : TranscribeResult) (t : String)
    (h : acceptedText result = some t) : t ≠ "" := by
  unfold acceptedText at h
  split at h
  · next u _ _ =>
      split at h
      · next hc =>
          simp only [Option.some.injEq] at h
          rw [← h]
          exact hc.2
      · cases h
  · cases h

/-- Called with a text that is not empty, `generateChunkImage` keeps the texts of the
suspended image calls non-empty and makes no call with an empty prompt. -/
theorem generateChunkImage_notEmpty (s : Coordinator) (i : Nat) (text : String)
    (ht : text ≠ "") (hinv : ∀ t ∈ s.images, t.2.textNotEmpty = true) :
    (∀ t ∈ (generateChunkImage s i text).1.images, t.2.textNotEmpty = true) ∧
      (generateChunkImage s i text).2.all Call.promptNotEmpty = true := by
  unfold generateChunkImage
  split
  · exact ⟨hinv, rfl⟩
  · split
    · refine ⟨?_, by simp [Call.promptNotEmpty]⟩
      intro t htm
      simp only [List.mem_append, List.mem_singleton] at htm
      rcases htm with htm | htm
      · exact hinv t htm
      · rw [htm]; simp [ImagePhase.textNotEmpty, ht]
    · refine ⟨?_, by simp [Call.promptNotEmpty, ht]⟩
      intro t htm
      simp only [List.mem_append, List.mem_singleton] at htm
      rcases htm with htm | htm
      · exact hinv t htm
      · rw [htm]; simp [ImagePhase.textNotEmpty, ht]

/-- The continuation after the transcription keeps the texts of the suspended image calls
non-empty and makes no call with an empty prompt. -/
theorem afterTranscribe_notEmpty (s : Coordinator) (rest : List (Nat × HandlePhase)) (i : Nat)
    (result : TranscribeResult) (now : Nat)
    (hinv : ∀ t ∈ s.images, t.2.textNotEmpty = true) :
    (∀ t ∈ (afterTranscribe s rest i result now).1.images, t.2.textNotEmpty = true) ∧
      (afterTranscribe s rest i result now).2.all Call.promptNotEmpty = true := by
  unfold afterTranscribe
  cases h : acceptedText result with
  | none => exact ⟨hinv, rfl⟩
  | some t =>
      have ht := acceptedText_ne_empty result t h
      simp only
      split
      · next hcond =>
          obtain ⟨g1, g2⟩ := generateChunkImage_notEmpty
            { s with liveTranscript := appendTranscript s.liveTranscript i t now } i t ht hinv
          split
          · refine ⟨g1, ?_⟩
            rw [List.all_append, g2]
            rfl
          · exact ⟨g1, g2⟩
      · next hcond =>
          split
          · exact ⟨hinv, rfl⟩
          · exact ⟨hinv, rfl⟩

/-- Every step keeps the texts of the suspended image calls non-empty and makes no call of
`sdGenerateImage` with an empty prompt. -/
theorem cstep_notEmpty (lower : String → String) (s : Coordinator) (e : CEvent)
    (hinv : ∀ t ∈ s.images, t.2.textNotEmpty = true) :
    (∀ t ∈ (cstep lower s e).1.images, t.2.textNotEmpty = true) ∧
      (cstep lower s e).2.all Call.promptNotEmpty = true := by
  cases e with
  | chunk i =>
      simp only [cstep]
      split
      · exact ⟨hinv, rfl⟩
      · exact ⟨hinv, rfl⟩
  | transcribeDone i outcome now =>
      simp only [cstep]
      split
      · exact ⟨hinv, rfl⟩
      · cases outcome with
        | error msg => exact ⟨hinv, rfl⟩
        | ok result => exact afterTranscribe_notEmpty s _ i result now hinv
  | extractDone i outcome =>
      simp only [cstep]
      split
      · exact ⟨hinv, rfl⟩
      · cases outcome with
        | error msg => exact ⟨hinv, rfl⟩
        | ok er =>
            simp only
            split
            · exact ⟨hinv, rfl⟩
            · exact ⟨hinv, rfl⟩
  | processDone i outcome =>
      simp only [cstep]
      split
      · split <;> exact ⟨hinv, rfl⟩
      · exact ⟨hinv, rfl⟩
  | promptDone i outcome =>
      simp only [cstep]
      split
      · next j text rest hfound =>
          obtain ⟨hx, hrest⟩ := takeFirst_mem _ _ _ _ hfound
          have htext : text ≠ "" := by
            have := hinv _ hx
            simpa [ImagePhase.textNotEmpty] using this
          have hr : ∀ t ∈ rest, t.2.textNotEmpty = true := fun t ht => hinv t (hrest t ht)
          cases outcome with
          | error msg => exact ⟨hr, rfl⟩
          | ok pr =>
              have hp : (match pr.success, pr.prompt with
                  | true, some prompt => if prompt ≠ "" then prompt else text
                  | _, _ => text) ≠ "" := by
                split
                · split
                  · assumption
                  · exact htext
                · exact htext
              simp only
              refine ⟨?_, ?_⟩
              · intro t ht
                simp only [List.mem_append, List.mem_singleton] at ht
                rcases ht with ht | ht
                · exact hr t ht
                · rw [ht]
                  simp only [ImagePhase.textNotEmpty, bne_iff_ne, ne_eq]
                  exact hp
              · simp only [List.all_cons, List.all_nil, Call.promptNotEmpty, Bool.and_true,
                  bne_iff_ne, ne_eq]
                exact hp
      · exact ⟨hinv, rfl⟩
  | sdDone i outcome =>
      simp only [cstep]
      split
      · next j imagePrompt rest hfound =>
          obtain ⟨hx, hrest⟩ := takeFirst_mem _ _ _ _ hfound
          have hr : ∀ t ∈ rest, t.2.textNotEmpty = true := fun t ht => hinv t (hrest t ht)
          have hsave : ∀ t ∈ rest ++ [(i, ImagePhase.awaitSave)], t.2.textNotEmpty = true := by
            intro t ht
            simp only [List.mem_append, List.mem_singleton] at ht
            rcases ht with ht | ht
            · exact hr t ht
            · rw [ht]; rfl
          cases outcome with
          | error msg => exact ⟨hr, rfl⟩
          | ok result =>
              simp only
              split
              · split
                · split
                  · exact ⟨hsave, rfl⟩
                  · exact ⟨hr, rfl⟩
                · exact ⟨hr, rfl⟩
              · exact ⟨hr, rfl⟩
      · exact ⟨hinv, rfl⟩
  | saveDone i outcome =>
      simp only [cstep]
      split
      · exact ⟨hinv, rfl⟩
      · next x rest hfound =>
          obtain ⟨_, hrest⟩ := takeFirst_mem _ _ _ _ hfound
          have hr : ∀ t ∈ rest, t.2.textNotEmpty = true := fun t ht => hinv t (hrest t ht)
          cases outcome with
          | error msg => exact ⟨hr, rfl⟩
          | ok u => exact ⟨hr, rfl⟩

theorem crun_notEmpty (lower : String → String) (s : Coordinator) (evs : List CEvent)
    (hinv : ∀ t ∈ s.images, t.2.textNotEmpty = true) :
    (crun lower s evs).2.all Call.promptNotEmpty = true := by
  induction evs generalizing s with
  | nil => rfl
  | cons e es ih =>
      obtain ⟨h1, h2⟩ := cstep_notEmpty lower s e hinv
      simp only [crun]
      rw [List.all_append, h2, ih _ h1]
      rfl

/-- C30: in the live pipeline, started with any settings and any health of the two
collaborators, and for every sequence of `handleChunk` calls and of answers of the
collaborators (among them a scene prompt that is empty, blank, missing or reported as
failed, and rejected calls), no call of `sdGenerateImage` is made with the empty string
as its prompt. -/
theorem C30_no_empty_prompt (lower : String → String)
    (autoDetect autoGenerateImages llmReady sdSuccess : Bool) (evs : List CEvent) :
    (crun lower (Coordinator.start autoDetect autoGenerateImages llmReady sdSuccess) evs).2.all
      Call.promptNotEmpty = true :=
  crun_notEmpty lower _ evs (fun t ht => by cases ht)

/-! ## Session files: claims -/

/-- C26 fails on the code: in a session whose first recording ends with an empty live
transcript and whose second recording has a transcript, the second transcript is saved
as `transcript-1.json` while its audio is saved as `recording-2.webm`; `loadAudio` maps
`transcript-1.json` to recording number 1 and loads the audio of the first recording. -/
theorem C26_transcript_paired_with_other_audio :
    readFile
        (saveRecording id Sum.inl (fun d => Sum.inr d.chunks)
          (saveRecording id Sum.inl (fun d => Sum.inr d.chunks) [] (some [⟨[1]⟩]) true [] [] 30 100)
          (some [⟨[2]⟩]) true [⟨0, "hello", 150⟩] [] 12 200)
        "transcript-1.json" = some (Sum.inr [⟨0, "hello", "00:00"⟩]) ∧
      readFile
        (saveRecording id Sum.inl (fun d => Sum.inr d.chunks)
          (saveRecording id Sum.inl (fun d => Sum.inr d.chunks) [] (some [⟨[1]⟩]) true [] [] 30 100)
          (some [⟨[2]⟩]) true [⟨0, "hello", 150⟩] [] 12 200)
        "recording-2.webm" = some (Sum.inl [⟨[2]⟩]) ∧
      readFile
        (saveRecording id Sum.inl (fun d => Sum.inr d.chunks)
          (saveRecording id Sum.inl (fun d => Sum.inr d.chunks) [] (some [⟨[1]⟩]) true [] [] 30 100)
          (some [⟨[2]⟩]) true [⟨0, "hello", 150⟩] [] 12 200)
        "recording-1.webm" = some (Sum.inl [⟨[1]⟩]) ∧
      loadAudio
        (saveRecording id Sum.inl (fun d => Sum.inr d.chunks)
          (saveRecording id Sum.inl (fun d => Sum.inr d.chunks) [] (some [⟨[1]⟩]) true [] [] 30 100)
          (some [⟨[2]⟩]) true [⟨0, "hello", 150⟩] [] 12 200)
        (some "transcript-1.json") = some (Sum.inl [⟨[1]⟩]) := by
  decide

/-- C27 fails on the code: `process-entities` writes the profile of a new entity to a
`.json` file at the top level of the profiles directory, where `get-profiles` does not
look, so the profile it returns in `newProfiles` is not among the listed profiles; a
profile made by `create-profile` is listed. -/
theorem C27_auto_profile_not_listed :
    (processEntitiesDir asciiLower (fun n => ⟨List.replicate (n + 1) 'x'⟩) "c" 0
        { store := { files := [], idsUsed := 0 }, dirs := [] }
        [{ name := "Grak", type := .str "monster", description := .str "an orc" }]).2.newProfiles.map
        Profile.id = ["x"] ∧
      getProfiles id "profiles"
        (processEntitiesDir asciiLower (fun n => ⟨List.replicate (n + 1) 'x'⟩) "c" 0
          { store := { files := [], idsUsed := 0 }, dirs := [] }
          [{ name := "Grak", type := .str "monster", description := .str "an orc" }]).1 = [] ∧
      getProfiles id "profiles"
        (createProfile (fun n => ⟨List.replicate (n + 1) 'x'⟩)
          { store := { files := [], idsUsed := 0 }, dirs := [] } "Grak") =
        [{ id := "x", name := "Grak", path := "profiles/x" }] := by
  decide

/-- Whatever the entities, `process-entities` leaves the list of `get-profiles` as it was. -/
theorem getProfiles_processEntitiesDir (sortByName : List ListedProfile → List ListedProfile)
    (profilesPath : String) (lower : String → String) (genId : Nat → String)
    (campaignId : String) (now : Nat) (d : ProfilesDir) (entities : List Entity) :
    getProfiles sortByName profilesPath
        (processEntitiesDir lower genId campaignId now d entities).1 =
      getProfiles sortByName profilesPath d := rfl

/-! ## Numbered files: claims -/

/-- The number model at some values: `2 ^ 53 + 1` and `2 ^ 53 + 3` are read as their even
neighbours, and numbers are printed as JavaScript prints them (`2 ^ 60`, `2 ^ 70`, `10 ^ 21 - 1` and `Infinity` among them). -/
theorem jsNumber_examples :
    parseInt "9007199254740993".data = .finite 9007199254740992 ∧
      parseInt "9007199254740995".data = .finite 9007199254740996 ∧
      parseInt "007".data = .finite 7 ∧
      JsNumber.addOne (.finite 9007199254740991) = .finite 9007199254740992 ∧
      JsNumber.addOne (.finite 9007199254740992) = .finite 9007199254740992 ∧
      jsNumberToString (.finite 0) = "0" ∧
      jsNumberToString (.finite 120) = "120" ∧
      jsNumberToString (parseInt "1152921504606846976".data) = "1152921504606847000" ∧
      jsNumberToString (parseInt "1180591620717411303424".data) = "1.1805916207174113e+21" ∧
      jsNumberToString (parseInt "999999999999999999999".data) = "1e+21" ∧
      jsNumberToString (parseInt "100000000000000000000".data) = "100000000000000000000" ∧
      jsNumberToString .infinity = "Infinity" := by
  decide

/-- C29 fails on the code. In a session directory that holds
`recording-9007199254740992.webm`, `update-session-audio` parses the number `2 ^ 53`, and
`Math.max(...) + 1` is `2 ^ 53` again, since `2 ^ 53 + 1` is not a double-precision number:
the handler returns the number of the existing file and writes the new audio over it. The
same happens to `transcript-9007199254740992.json` in `save-live-transcript`. One number
below, at `2 ^ 53 - 1`, the new file gets the next number and the existing file is kept. -/
theorem C29_existing_number_reused :
    (nextNumber "recording-" ".webm" ["recording-9007199254740992.webm"] =
        .finite 9007199254740992 ∧
      numberedName "recording-" (.finite 9007199254740992) ".webm" =
        "recording-9007199254740992.webm" ∧
      readFile [("recording-9007199254740992.webm", "first")]
        "recording-9007199254740992.webm" = some "first" ∧
      (updateSessionAudio [("recording-9007199254740992.webm", "first")] "second").2 =
        .finite 9007199254740992 ∧
      readFile (updateSessionAudio [("recording-9007199254740992.webm", "first")] "second").1
        "recording-9007199254740992.webm" = some "second") ∧
    (readFile [("transcript-9007199254740992.json", "first")]
        "transcript-9007199254740992.json" = some "first" ∧
      (saveLiveTranscript id [("transcript-9007199254740992.json", "first")] "second").2 =
        .finite 9007199254740992 ∧
      readFile (saveLiveTranscript id [("transcript-9007199254740992.json", "first")] "second").1
        "transcript-9007199254740992.json" = some "second") ∧
    ((updateSessionAudio [("recording-9007199254740991.webm", "first")] "second").2 =
        .finite 9007199254740992 ∧
      readFile (updateSessionAudio [("recording-9007199254740991.webm", "first")] "second").1
        "recording-9007199254740991.webm" = some "first" ∧
      readFile (updateSessionAudio [("recording-9007199254740991.webm", "first")] "second").1
        "recording-9007199254740992.webm" = some "second") := by
  decide

/-! ## Entity highlighting: lemmas -/

theorem take_append_jsSlice (text : List Char) (a b : Nat) (h : a ≤ b) :
    text.take a ++ jsSlice text a b = text.take b := by
  unfold jsSlice
  have : b = a + (b - a) := by omega
  conv_rhs => rw [this, List.take_add]

/-- A match of a name in the text lies inside the text and equals the name up to case. -/
theorem literalAt_spec (canon : Char → Char) (text : List Char) (p : Nat) (name : List Char)
    (hne : name ≠ []) (h : literalAt canon text p name = true) :
    (jsSlice text p (p + name.length)).map canon = name.map canon ∧
      p + name.length ≤ text.length ∧ jsSlice text p (p + name.length) ≠ [] := by
  unfold literalAt at h
  have heq : ((text.drop p).take name.length).map canon = name.map canon := by
    simpa using h
  have hlen := congrArg List.length heq
  simp only [List.length_map, List.length_take, List.length_drop] at hlen
  have hpos : 0 < name.length := List.length_pos.mpr hne
  have hs : jsSlice text p (p + name.length) = (text.drop p).take name.length := by
    unfold jsSlice
    rw [Nat.add_sub_cancel_left]
  rw [hs]
  refine ⟨heq, by omega, ?_⟩
  intro he
  have := congrArg List.length he
  simp only [List.length_take, List.length_drop, List.length_nil] at this
  omega

theorem matchAt_spec (canon : Char → Char) (names : List (List Char)) (text : List Char)
    (p len : Nat) (h : matchAt canon names text p = some len) :
    ∃ name ∈ names, len = name.length ∧ literalAt canon text p name = true := by
  unfold matchAt at h
  split at h
  · cases hf : names.find? (fun name =>
        literalAt canon text p name && wordBoundary text (p + name.length)) with
    | none => rw [hf] at h; cases h
    | some name =>
        rw [hf] at h
        simp only [Option.map_some', Option.some.injEq] at h
        have hp := List.find?_some hf
        simp only [Bool.and_eq_true] at hp
        exact ⟨name, List.mem_of_find?_eq_some hf, h.symm, hp.1⟩
  · cases h

theorem execFrom_spec (canon : Char → Char) (names : List (List Char)) (text : List Char)
    (count p idx len : Nat) (h : execFrom canon names text count p = some (idx, len)) :
    p ≤ idx ∧ matchAt canon names text idx = some len := by
  induction count generalizing p with
  | zero => simp [execFrom] at h
  | succ count ih =>
      unfold execFrom at h
      cases hm : matchAt canon names text p with
      | some l =>
          rw [hm] at h
          simp only [Option.some.injEq, Prod.mk.injEq] at h
          obtain ⟨h1, h2⟩ := h
          subst h1 h2
          exact ⟨Nat.le_refl _, hm⟩
      | none =>
          rw [hm] at h
          obtain ⟨i1, i2⟩ := ih (p + 1) h
          exact ⟨by omega, i2⟩

/-- A match found by `regex.exec` starts at or after `lastIndex`, is a non-empty match of
a name, and ends inside the text. -/
theorem regexExec_spec (canon : Char → Char) (names : List (List Char)) (text : List Char)
    (lastIndex idx len : Nat) (hne : ∀ name ∈ names, name ≠ [])
    (h : regexExec canon names text lastIndex = some (idx, len)) :
    lastIndex ≤ idx ∧ 0 < len ∧ idx + len ≤ text.length ∧
      jsSlice text idx (idx + len) ≠ [] ∧
      ∃ name ∈ names, (jsSlice text idx (idx + len)).map canon = name.map canon := by
  unfold regexExec at h
  split at h
  · cases h
  · obtain ⟨h1, h2⟩ := execFrom_spec canon names text _ _ _ _ h
    obtain ⟨name, hmem, hlen, hlit⟩ := matchAt_spec canon names text idx len h2
    obtain ⟨l1, l2, l3⟩ := literalAt_spec canon text idx name (hne name hmem) hlit
    subst hlen
    exact ⟨h1, List.length_pos.mpr (hne name hmem), l2, l3, name, hmem, l1⟩

/-- With names that are not empty, the loop ends within the fuel that the rest of the text
allows, and it keeps the invariant up to the end of the text. -/
theorem highlightLoop_spec (canon : Char → Char) (names : List (List Char)) (text : List Char)
    (hne : ∀ name ∈ names, name ≠ []) (fuel lastIndex : Nat) (parts : List TextPart)
    (hinv : HighlightInv canon names text lastIndex parts)
    (hfuel : text.length - lastIndex < fuel) :
    ∃ result, highlightLoop canon names text fuel lastIndex parts = some result ∧
      HighlightInv canon names text text.length result := by
  induction fuel generalizing lastIndex parts with
  | zero => omega
  | succ fuel ih =>
      obtain ⟨hle, hcat, hent⟩ := hinv
      unfold highlightLoop
      cases hx : regexExec canon names text lastIndex with
      | none =>
          simp only
          refine ⟨_, rfl, Nat.le_refl _, ?_, ?_⟩
          · split
            · rw [List.flatMap_append, hcat]
              simp [List.flatMap_cons, List.take_append_drop]
            · next hlt =>
                rw [hcat, List.take_of_length_le (by omega), List.take_of_length_le (by omega)]
          · intro p hp
            split at hp
            · rcases List.mem_append.mp hp with hp | hp
              · exact hent p hp
              · rw [List.mem_singleton.mp hp]
                intro hfalse
                cases hfalse
            · exact hent p hp
      | some pr =>
          obtain ⟨idx, len⟩ := pr
          obtain ⟨h1, h2, h3, h4, h5⟩ := regexExec_spec canon names text lastIndex idx len hne hx
          simp only
          apply ih
          · refine ⟨h3, ?_, ?_⟩
            · rw [List.flatMap_append]
              simp only [List.flatMap_cons, List.flatMap_nil, List.append_nil]
              split
              · rw [List.flatMap_append, hcat]
                simp only [List.flatMap_cons, List.flatMap_nil, List.append_nil]
                rw [take_append_jsSlice text lastIndex idx h1,
                  take_append_jsSlice text idx (idx + len) (by omega)]
              · next hgt =>
                  have : idx = lastIndex := by omega
                  rw [hcat, ← this, take_append_jsSlice text idx (idx + len) (by omega)]
            · intro p hp
              rcases List.mem_append.mp hp with hp | hp
              · split at hp
                · rcases List.mem_append.mp hp with hp | hp
                  · exact hent p hp
                  · rw [List.mem_singleton.mp hp]
                    intro hfalse
                    cases hfalse
                · exact hent p hp
              · rw [List.mem_singleton.mp hp]
                intro _
                exact ⟨h4, h5⟩
          · omega

/-! ## Entity highlighting: claims -/

/-- C28: for every text and every list of entity names none of which is empty, the loop of
`HighlightedText` ends after at most as many calls of `regex.exec` as the text has
characters, plus one; the texts of the parts it produces, put together in order, are the
text; and every part that is flagged as an entity is not empty and equals one of the
names up to case. -/
theorem C28_highlight_partitions (canon : Char → Char) (text : String)
    (entityNames : List String) (fuel : Nat)
    (hne : ∀ n ∈ entityNames, n ≠ "") (hfuel : text.length < fuel) :
    ∃ parts, highlightedParts canon fuel text entityNames = some parts ∧
      parts.flatMap TextPart.text = text.data ∧
      ∀ p ∈ parts, p.isEntity = true →
        p.text ≠ [] ∧ ∃ n ∈ entityNames, p.text.map canon = n.data.map canon := by
  have hsingle : ∀ p ∈ [({ text := text.data, isEntity := false } : TextPart)],
      p.isEntity = true →
        p.text ≠ [] ∧ ∃ n ∈ entityNames, p.text.map canon = n.data.map canon := by
    intro p hp hfalse
    rw [List.mem_singleton.mp hp] at hfalse
    cases hfalse
  unfold highlightedParts
  split
  · exact ⟨_, rfl, by simp, hsingle⟩
  · split
    · exact ⟨_, rfl, by simp, hsingle⟩
    · have hne2 : ∀ name ∈ entityNames.map String.data, name ≠ [] := by
        intro name hname hnil
        obtain ⟨n, hn, hnd⟩ := List.mem_map.mp hname
        apply hne n hn
        cases n with
        | mk data =>
            simp only at hnd
            rw [hnd, hnil]
      have hlen : text.data.length = text.length := by
        cases text; rfl
      obtain ⟨result, hres, _, hcat, hent⟩ :=
        highlightLoop_spec canon (entityNames.map String.data) text.data hne2 fuel 0 []
          ⟨Nat.zero_le _, by simp, fun p hp => by cases hp⟩ (by omega)
      refine ⟨result, hres, ?_, ?_⟩
      · rw [hcat, List.take_of_length_le (Nat.le_refl _)]
      · intro p hp hpe
        obtain ⟨h1, name, hname, heq⟩ := hent p hp hpe
        obtain ⟨n, hn, hnd⟩ := List.mem_map.mp hname
        exact ⟨h1, n, hn, by rw [hnd]; exact heq⟩

/-- C28 at the text of Scenario A with the names `Grak` and `Sunken Tower`. -/
theorem C28_highlight_partitions_witness :
    ∃ parts,
      highlightedParts Char.toUpper 60 "The party meets Grak the Orc near the Sunken Tower."
          ["Grak", "Sunken Tower"] = some parts ∧
        parts.flatMap TextPart.text =
          "The party meets Grak the Orc near the Sunken Tower.".data ∧
        ∀ p ∈ parts, p.isEntity = true →
          p.text ≠ [] ∧
            ∃ n ∈ ["Grak", "Sunken Tower"], p.text.map Char.toUpper = n.data.map Char.toUpper :=
  C28_highlight_partitions Char.toUpper "The party meets Grak the Orc near the Sunken Tower."
    ["Grak", "Sunken Tower"] 60 (by decide) (by decide)

end DungeonScribe
